import Mathlib

/-!
# Event reference generator (`docs-tools/event-reference/main.go`)

A shallow embedding of the two passes of `main` over the parsed Go files:

* pass 1 (lines 49-90) collects the audit event type identifiers into the
  map `eventTypes`;
* pass 2 (lines 92-120) appends one `EventData` per declared name that is a
  key of `eventTypes`.

The parsed files are the input of the model: `go/parser` and the directory
walk are not part of it.  Go strings are modelled by Lean strings; the
source files are valid UTF-8, where matching a substring byte by byte and
character by character agree.
-/

namespace EventReference

/-! ## Data model -/

/-- The `go/ast` nodes the two callbacks tell apart.  Every other node kind
(`GenDecl`, `FuncDecl`, `CallExpr`, statements, ...) is `other` with its
child nodes in traversal order.  A `nil` field is `none`.  `doc` is the
comment group `ValueSpec.Doc`, represented by the text `Doc.Text()`
returns for it. -/
inductive Node where
  | ident (name : String)
  | basicLit (value : String)
  | selectorExpr (x : Node) (sel : String)
  | compositeLit (type : Option Node) (elts : List Node)
  | keyValueExpr (key : Node) (value : Node)
  | valueSpec (doc : Option String) (names : List String) (type : Option Node)
      (values : List Node)
  | other (children : List Node)
deriving Repr

/-- The part of `ast.File` the program reads: `f.Decls`. -/
structure File where
  Decls : List Node
deriving Repr

/-- The record type `EventData` (lines 17-20). -/
structure EventData where
  Name : String
  Comment : String
deriving DecidableEq, Repr

/-- The two run-time panics pass 2 can raise at line 107: `val.Values[0]`
on an empty slice and the unchecked assertion `.(*ast.BasicLit)`. -/
inductive Panic where
  | indexOutOfRange
  | typeAssertion
deriving DecidableEq, Repr

/-! ## Traversal: `astutil.Apply(d, pre, nil)` with `pre` always returning `true` -/

mutual
/-- The nodes `astutil.Apply` hands to `pre`, in order: the node itself, then
its children in field order (`SelectorExpr`: X, Sel; `CompositeLit`: Type,
Elts; `KeyValueExpr`: Key, Value; `ValueSpec`: Names, Type, Values).  Comment
groups hold comments only and are left out: neither callback acts on them. -/
def Node.walk : Node → List Node
  | .ident name => [.ident name]
  | .basicLit value => [.basicLit value]
  | .selectorExpr x sel => .selectorExpr x sel :: (x.walk ++ [.ident sel])
  | .compositeLit type elts => .compositeLit type elts :: (walkOpt type ++ walkList elts)
  | .keyValueExpr key value => .keyValueExpr key value :: (key.walk ++ value.walk)
  | .valueSpec doc names type values =>
      .valueSpec doc names type values ::
        (names.map Node.ident ++ (walkOpt type ++ walkList values))
  | .other children => .other children :: walkList children
/-- Traversal of an optional child: a `nil` child is not visited. -/
def walkOpt : Option Node → List Node
  | none => []
  | some n => n.walk
/-- Traversal of a list of children, left to right. -/
def walkList : List Node → List Node
  | [] => []
  | n :: ns => n.walk ++ walkList ns
end

/-! ## Strings: `strings.HasPrefix` and `strings.ReplaceAll` -/

/-- `strings.HasPrefix s pre`. -/
def HasPrefix (s pre : String) : Bool :=
  pre.data.isPrefixOf s.data

/-- Scan of `strings.ReplaceAll` for a non-empty `old`: `skip` counts the
characters of the occurrence of `old` just replaced that are still to be
passed over; with `skip = 0` the scan is at a position where a new match may
begin. -/
def replaceScan (old new : List Char) : Nat → List Char → List Char
  | _, [] => []
  | skip + 1, _ :: cs => replaceScan old new skip cs
  | 0, c :: cs =>
    if old.isPrefixOf (c :: cs) then new ++ replaceScan old new (old.length - 1) cs
    else c :: replaceScan old new 0 cs

/-- `strings.ReplaceAll s old new`: every non-overlapping occurrence of `old`
in `s`, found left to right, is replaced by `new`; an empty `old` matches at
the start of the string and after every character. -/
def ReplaceAll (s old new : String) : String :=
  match old.data with
  | [] => ⟨new.data ++ s.data.flatMap (fun c => c :: new.data)⟩
  | o :: os => ⟨replaceScan (o :: os) new.data 0 s.data⟩

/-! ## Pass 1: collecting the event types (lines 49-90) -/

/-- The assignment `eventTypes[k] = struct{}{}` on the key set of the map. -/
def mapSet (eventTypes : List String) (k : String) : List String :=
  if k ∈ eventTypes then eventTypes else k :: eventTypes

/-- One iteration of the loop over `vl.Elts` (lines 63-82). -/
def typeFieldStep (eventTypes : List String) (el : Node) : List String :=
  match el with
  | .keyValueExpr key value =>
    match key with
    | .ident name =>
      if name = "Type" then
        match value with
        | .selectorExpr _ sel => mapSet eventTypes sel
        | _ => eventTypes
      else eventTypes
    | _ => eventTypes
  | _ => eventTypes

/-- The callback of the first `astutil.Apply` (lines 52-87), as a function
of the map before the call. -/
def discoverVisit (eventTypes : List String) (n : Node) : List String :=
  match n with
  | .keyValueExpr key value =>
    match key with
    | .ident name =>
      if name ≠ "Metadata" then eventTypes
      else
        match value with
        | .compositeLit type elts =>
          match type with
          | some (.selectorExpr _ sel) =>
            if sel = "Metadata" then elts.foldl typeFieldStep eventTypes else eventTypes
          | _ => eventTypes
        | _ => eventTypes
    | _ => eventTypes
  | _ => eventTypes

/-- The first walk over one declaration (line 52). -/
def discoverDecl (eventTypes : List String) (d : Node) : List String :=
  d.walk.foldl discoverVisit eventTypes

/-- The first walk over one file (line 51). -/
def discoverFile (eventTypes : List String) (f : File) : List String :=
  f.Decls.foldl discoverDecl eventTypes

/-- The first pass (lines 49-90), starting from the empty map of line 23. -/
def discover (gofiles : List File) : List String :=
  gofiles.foldl discoverFile []

/-! ## Pass 2: extracting the records (lines 92-120) -/

/-- `val.Doc.Text()`: the empty string for a `nil` comment group. -/
def docText (doc : Option String) : String :=
  doc.getD ""

/-- The literal with its double quotes replaced by backticks (line 107). -/
def normalize (value : String) : String :=
  ReplaceAll value "\"" "`"

/-- Lines 108-110: the comment of the record for the name `n`. -/
def commentFor (tx n typ : String) : String :=
  if HasPrefix tx n then ReplaceAll tx n typ else tx

/-- The loop over `val.Names` (lines 104-116), as a function of `eventData`
before the loop; a panic ends the run. -/
def namesLoop (eventTypes : List String) (doc : Option String) (values : List Node) :
    List String → List EventData → Except Panic (List EventData)
  | [], eventData => .ok eventData
  | n :: ns, eventData =>
    if n ∈ eventTypes then
      let tx := docText doc
      match values with
      | [] => .error .indexOutOfRange
      | .basicLit value :: _ =>
        let typ := normalize value
        namesLoop eventTypes doc values ns
          (eventData ++ [{ Name := typ, Comment := commentFor tx n typ }])
      | _ :: _ => .error .typeAssertion
    else namesLoop eventTypes doc values ns eventData

/-- The callback of the second `astutil.Apply` (lines 97-118). -/
def extractVisit (eventTypes : List String) (eventData : List EventData) (n : Node) :
    Except Panic (List EventData) :=
  match n with
  | .valueSpec doc names _ values => namesLoop eventTypes doc values names eventData
  | _ => .ok eventData

/-- The second walk over one declaration (line 97). -/
def extractDecl (eventTypes : List String) (eventData : List EventData) (d : Node) :
    Except Panic (List EventData) :=
  d.walk.foldlM (extractVisit eventTypes) eventData

/-- The second walk over one file (line 96). -/
def extractFile (eventTypes : List String) (eventData : List EventData) (f : File) :
    Except Panic (List EventData) :=
  f.Decls.foldlM (extractDecl eventTypes) eventData

/-- The second pass (lines 92-120), starting from the empty slice of
line 25: the records printed at line 121, or the panic that ended the run. -/
def extract (gofiles : List File) (eventTypes : List String) :
    Except Panic (List EventData) :=
  gofiles.foldlM (extractFile eventTypes) []

/-- The two passes of `main` on the parsed files. -/
def pipeline (gofiles : List File) : Except Panic (List EventData) :=
  extract gofiles (discover gofiles)


/-! ## Specification vocabulary -/

/-- `Child c p`: the node `c` is a direct child of the node `p`. -/
inductive Child : Node → Node → Prop
  | selX (x : Node) (sel : String) : Child x (.selectorExpr x sel)
  | selSel (x : Node) (sel : String) : Child (.ident sel) (.selectorExpr x sel)
  | litType (t : Node) (elts : List Node) : Child t (.compositeLit (some t) elts)
  | litElt (type : Option Node) (elts : List Node) (e : Node) :
      e ∈ elts → Child e (.compositeLit type elts)
  | kvKey (key value : Node) : Child key (.keyValueExpr key value)
  | kvValue (key value : Node) : Child value (.keyValueExpr key value)
  | specName (doc : Option String) (names : List String) (type : Option Node)
      (values : List Node) (name : String) :
      name ∈ names → Child (.ident name) (.valueSpec doc names type values)
  | specType (doc : Option String) (names : List String) (t : Node) (values : List Node) :
      Child t (.valueSpec doc names (some t) values)
  | specValue (doc : Option String) (names : List String) (type : Option Node)
      (values : List Node) (v : Node) :
      v ∈ values → Child v (.valueSpec doc names type values)
  | otherChild (children : List Node) (c : Node) : c ∈ children → Child c (.other children)

/-- `Sub n root`: the node `n` occurs in the tree `root`, at any depth
(`root` itself included). -/
inductive Sub : Node → Node → Prop
  | refl (n : Node) : Sub n n
  | step {n c p : Node} : Child c p → Sub n c → Sub n p

/-- `Occurs n gofiles`: the node `n` occurs, at any depth, in a declaration
of one of the files. -/
def Occurs (n : Node) (gofiles : List File) : Prop :=
  ∃ f ∈ gofiles, ∃ d ∈ f.Decls, Sub n d

/-- `IsTypeField el X`: `el` is the field assignment `Type: p.X` for some
expression `p`. -/
def IsTypeField (el : Node) (X : String) : Prop :=
  ∃ p, el = .keyValueExpr (.ident "Type") (.selectorExpr p X)

/-- `IsEventTag n X`: `n` is a field assignment `Metadata: q.Metadata{...}`
whose literal has the qualified type `q.Metadata` and a field assignment
`Type: p.X` among its elements. -/
def IsEventTag (n : Node) (X : String) : Prop :=
  ∃ q elts, n = .keyValueExpr (.ident "Metadata")
      (.compositeLit (some (.selectorExpr q "Metadata")) elts) ∧
    ∃ el ∈ elts, IsTypeField el X

/-! ## Specification vocabulary for pass 2 -/

/-- The record lines 106-114 build for the name `n` of a specification with
documentation `doc` whose first initializer is the literal `value`. -/
def recordFor (doc : Option String) (value n : String) : EventData :=
  { Name := normalize value, Comment := commentFor (docText doc) n (normalize value) }

/-- The value of `val.Values[0].(*ast.BasicLit).Value`, or its panic. -/
def firstLiteral : List Node → Except Panic String
  | [] => .error .indexOutOfRange
  | .basicLit value :: _ => .ok value
  | _ :: _ => .error .typeAssertion

/-- The declared names of a specification that are keys of the map, in
order. -/
def candidateNames (eventTypes : List String) (names : List String) : List String :=
  names.filter (fun n => n ∈ eventTypes)

/-- The records one value specification contributes: one per candidate name;
the initializer is only looked at when there is a candidate name. -/
def specRecords (eventTypes : List String) (doc : Option String) (values : List Node)
    (names : List String) : Except Panic (List EventData) :=
  if candidateNames eventTypes names = [] then .ok []
  else
    match firstLiteral values with
    | .error e => .error e
    | .ok value => .ok ((candidateNames eventTypes names).map (recordFor doc value))

/-- The records one visited node contributes. -/
def nodeRecords (eventTypes : List String) : Node → Except Panic (List EventData)
  | .valueSpec doc names _ values => specRecords eventTypes doc values names
  | _ => .ok []

/-- Two runs in sequence: the first panic, or the records of both in order. -/
def appendRuns (a b : Except Panic (List EventData)) : Except Panic (List EventData) :=
  match a with
  | .error e => .error e
  | .ok r =>
    match b with
    | .error e => .error e
    | .ok s => .ok (r ++ s)

/-- The contributions `g a` of the elements of a list, run in sequence. -/
def collect {α : Type} (g : α → Except Panic (List EventData)) :
    List α → Except Panic (List EventData)
  | [] => .ok []
  | a :: as => appendRuns (g a) (collect g as)

/-- All nodes of all declarations of all files, in the order pass 2 visits
them. -/
def allNodes (gofiles : List File) : List Node :=
  gofiles.flatMap (fun f => f.Decls.flatMap Node.walk)

/-- An occurrence of a declared name in a value specification. -/
structure Occurrence where
  doc : Option String
  name : String
  values : List Node

/-- The occurrences of candidate names at one node. -/
def nodeOccurrences (eventTypes : List String) : Node → List Occurrence
  | .valueSpec doc names _ values =>
    (candidateNames eventTypes names).map (fun n => { doc := doc, name := n, values := values })
  | _ => []

/-- The occurrences of candidate names in value specifications anywhere in
the files, in traversal order. -/
def candidateOccurrences (gofiles : List File) (eventTypes : List String) :
    List Occurrence :=
  (allNodes gofiles).flatMap (nodeOccurrences eventTypes)

/-- `Matches o r`: the record `r` is the record of the occurrence `o`, whose
first initializer is a literal. -/
def Matches (o : Occurrence) (r : EventData) : Prop :=
  ∃ value rest, o.values = .basicLit value :: rest ∧ r = recordFor o.doc value o.name

/-- `Declares d n`: some value specification in the tree `d` declares the
name `n`. -/
def Declares (d : Node) (n : String) : Prop :=
  ∃ doc names type values, Sub (.valueSpec doc names type values) d ∧ n ∈ names

/-- `DeclaredIn gofiles n`: some value specification in the files declares the
name `n`. -/
def DeclaredIn (gofiles : List File) (n : String) : Prop :=
  ∃ f ∈ gofiles, ∃ d ∈ f.Decls, Declares d n

/-- The names a node declares when it is a value specification. -/
def nodeNames : Node → List String
  | .valueSpec _ names _ _ => names
  | _ => []

/-- The names declared by the value specifications of the tree `d`, in
traversal order. -/
def declaredNames (d : Node) : List String :=
  d.walk.flatMap nodeNames

/-- The names declared by the value specifications of the files. -/
def declaredNamesIn (gofiles : List File) : List String :=
  gofiles.flatMap (fun f => f.Decls.flatMap declaredNames)

/-- `LiteralFirst cands node`: if `node` is a value specification that
declares at least one key of the map, its list of initializers is non-empty
and starts with a basic literal. -/
def LiteralFirst (eventTypes : List String) (node : Node) : Prop :=
  ∀ doc names type values, node = .valueSpec doc names type values →
    (∃ n ∈ names, n ∈ eventTypes) → ∃ value rest, values = .basicLit value :: rest

/-- `PanicsAt cands node p`: `node` is a value specification that declares a
key of the map and has no initializer (`p` is the index panic) or a first
initializer that is not a basic literal (`p` is the type-assertion panic). -/
def PanicsAt (eventTypes : List String) (node : Node) (p : Panic) : Prop :=
  ∃ doc names type values, node = .valueSpec doc names type values ∧
    (∃ n ∈ names, n ∈ eventTypes) ∧
    ((values = [] ∧ p = .indexOutOfRange) ∨
      (∃ v rest, values = v :: rest ∧ (∀ value, v ≠ .basicLit value) ∧ p = .typeAssertion))

/-- `isQualifiedMetadata type`: the type of a literal is a qualified
reference `q.Metadata`. -/
def isQualifiedMetadata : Option Node → Bool
  | some (.selectorExpr _ sel) => sel = "Metadata"
  | _ => false

/-! ## Example inputs -/

/-- The construction `Event{Metadata: T{Type: events.UserLoginEvent}}`, where
`T` is the type expression `metaType` of the inner literal. -/
def eventLit (metaType : Node) : Node :=
  .compositeLit (some (.ident "Event"))
    [.keyValueExpr (.ident "Metadata")
      (.compositeLit (some metaType)
        [.keyValueExpr (.ident "Type") (.selectorExpr (.ident "events") "UserLoginEvent")])]

/-- The expression `e` nested three literals deep:
`Outer{A: Mid{B: Inner{C: e}}}`. -/
def nest3 (e : Node) : Node :=
  .compositeLit (some (.ident "Outer"))
    [.keyValueExpr (.ident "A")
      (.compositeLit (some (.ident "Mid"))
        [.keyValueExpr (.ident "B")
          (.compositeLit (some (.ident "Inner")) [.keyValueExpr (.ident "C") e])])]

/-- The declaration `var x = e`: a `GenDecl` holding one `ValueSpec`. -/
def varDecl (e : Node) : Node :=
  .other [.valueSpec none ["x"] none [e]]

/-- A file whose only declaration nests the event construction three levels
deep, the inner literal having the type expression `metaType`. -/
def nestedFile (metaType : Node) : File :=
  { Decls := [varDecl (nest3 (eventLit metaType))] }

/-- The declaration group holding `EventFoo = "foo.event"` with the
documentation text `doc` attached to the specification. -/
def fooDecl (doc : String) : Node :=
  .other [.valueSpec (some doc) ["EventFoo"] none [.basicLit "\"foo.event\""]]

/-- A file whose only declaration is `fooDecl doc`. -/
def fooFile (doc : String) : File :=
  { Decls := [fooDecl doc] }

/-- The declaration group `doc; n = value`: one value specification with one
name and the literal `value` as its only initializer. -/
def constDecl (doc : Option String) (n value : String) : Node :=
  .other [.valueSpec doc [n] none [.basicLit value]]

/-- The declaration `var n = f()`: the initializer is a call, not a
literal. -/
def callDecl (n : String) : Node :=
  .other [.valueSpec none [n] none [.other [.ident "f"]]]

/-- The declaration `var n int`: no initializer. -/
def bareDecl (n : String) : Node :=
  .other [.valueSpec none [n] (some (.ident "int")) []]

/-- A declaration that constructs an event tagged `Type: events.X`. -/
def tagDecl (X : String) : Node :=
  .other [.valueSpec none ["e"] none
    [.compositeLit (some (.ident "Event"))
      [.keyValueExpr (.ident "Metadata")
        (.compositeLit (some (.selectorExpr (.ident "events") "Metadata"))
          [.keyValueExpr (.ident "Type") (.selectorExpr (.ident "events") X)])]]]

/-- Two files: the first tags `EventFoo` and `EventBar` as event types and
declares `EventFoo = "foo.event"`, the second declares `EventBar = f()`. -/
def malformedFiles : List File :=
  [{ Decls := [tagDecl "EventFoo", tagDecl "EventBar",
      constDecl (some "EventFoo is emitted when...") "EventFoo" "\"foo.event\""] },
   { Decls := [callDecl "EventBar"] }]

/-- A file with value declarations of every shape and no event tag: the
`Metadata` literal is typed by an unqualified name. -/
def untaggedFile : File :=
  { Decls := [varDecl (nest3 (eventLit (.ident "Metadata"))), callDecl "UserLoginEvent",
      bareDecl "UserLoginEvent", constDecl none "UserLoginEvent" "\"user.login\""] }

/-- A function declaration whose body constructs an event tagged
`Type: events.X`; it holds no value specification. -/
def tagFunc (X : String) : Node :=
  .other [.other [.compositeLit (some (.ident "Event"))
    [.keyValueExpr (.ident "Metadata")
      (.compositeLit (some (.selectorExpr (.ident "events") "Metadata"))
        [.keyValueExpr (.ident "Type") (.selectorExpr (.ident "events") X)])]]]

/-- The declaration `A, B = "a", "b"`: one specification, two names, two
initializers. -/
def pairDecl : Node :=
  .other [.valueSpec none ["A", "B"] none [.basicLit "\"a\"", .basicLit "\"b\""]]

/-- A file that tags `EventBar`, declares `var EventBar int` without
initializer and then `var EventBar = f()`. -/
def bareFirstFile : File :=
  { Decls := [tagDecl "EventBar", bareDecl "EventBar", callDecl "EventBar"] }

end EventReference

/-!
# Authorizing tunnel (`lib/reversetunnel/api_with_roles.go`)

`TunnelWithRoles` wraps a tunnel, a role set and an access point.  The
collaborators declared outside this file are parameters of the model: what
the inner tunnel returns, whether a site is a `*localSite`, its name, the
lookup of the access point, the check of the role set, the predicates and
the wrapping of package `trace`, and `utils.OpaqueAccessDenied`.  Each call
of a collaborator is a function of its arguments; the context and the tracing
span do not enter the results.  A Go result `nil, err` is `.error err`.
-/

namespace Reversetunnel

/-- The receiver of `GetSites` and `GetSite` with what its fields and the
helpers answer: `Site` stands for `RemoteSite`, `Cluster` for
`types.RemoteCluster`, `Err` for the non-nil values of `error`. -/
structure TunnelWithRoles (Site Cluster Err : Type) where
  /-- `t.tunnel.GetSites(ctx)`. -/
  tunnelGetSites : Except Err (List Site)
  /-- `t.tunnel.GetSite(ctx, clusterName)`. -/
  tunnelGetSite : String → Except Err Site
  /-- `_, ok := cluster.(*localSite)`. -/
  isLocalSite : Site → Bool
  /-- `cluster.GetName()`. -/
  getName : Site → String
  /-- `t.ap.GetRemoteCluster(ctx, name)`. -/
  getRemoteCluster : String → Except Err Cluster
  /-- `t.roles.CheckAccessToRemoteCluster(rc)`: `none` is the `nil` error. -/
  checkAccessToRemoteCluster : Cluster → Option Err
  /-- `trace.IsNotFound(err)`. -/
  isNotFound : Err → Bool
  /-- `trace.IsAccessDenied(err)`. -/
  isAccessDenied : Err → Bool
  /-- `trace.Wrap(err)` on a non-nil error. -/
  wrap : Err → Err
  /-- `utils.OpaqueAccessDenied(err)` on a non-nil error. -/
  opaqueAccessDenied : Err → Err

variable {Site Cluster Err : Type}

/-- The loop of `GetSites` (lines 62-82), as a function of the clusters still
to visit and of `out` so far. -/
def getSitesLoop (t : TunnelWithRoles Site Cluster Err) :
    List Site → List Site → Except Err (List Site)
  | [], out => .ok out
  | cluster :: rest, out =>
    if t.isLocalSite cluster then getSitesLoop t rest (out ++ [cluster])
    else
      match t.getRemoteCluster (t.getName cluster) with
      | .error err =>
        if !t.isNotFound err then .error (t.wrap err)
        else getSitesLoop t rest out
      | .ok rc =>
        match t.checkAccessToRemoteCluster rc with
        | some err =>
          if !t.isAccessDenied err then .error (t.wrap err)
          else getSitesLoop t rest out
        | none => getSitesLoop t rest (out ++ [cluster])

/-- `TunnelWithRoles.GetSites` (lines 53-84). -/
def GetSites (t : TunnelWithRoles Site Cluster Err) : Except Err (List Site) :=
  match t.tunnelGetSites with
  | .error err => .error (t.wrap err)
  | .ok clusters => getSitesLoop t clusters []

/-- `TunnelWithRoles.GetSite` (lines 87-106). -/
def GetSite (t : TunnelWithRoles Site Cluster Err) (clusterName : String) :
    Except Err Site :=
  match t.tunnelGetSite clusterName with
  | .error err => .error (t.wrap err)
  | .ok cluster =>
    if t.isLocalSite cluster then .ok cluster
    else
      match t.getRemoteCluster clusterName with
      | .error err => .error (t.wrap err)
      | .ok rc =>
        match t.checkAccessToRemoteCluster rc with
        | some err => .error (t.opaqueAccessDenied err)
        | none => .ok cluster

/-! ## Specification vocabulary -/

/-- `Allowed t s`: the access point finds the remote-cluster resource of the
site `s` and the role set's check on that resource returns no error. -/
def Allowed (t : TunnelWithRoles Site Cluster Err) (s : Site) : Prop :=
  ∃ rc, t.getRemoteCluster (t.getName s) = .ok rc ∧ t.checkAccessToRemoteCluster rc = none

/-- `FailsWith t s err`: for the site `s` the lookup fails with `err`, which
is not a not-found error, or the lookup succeeds and the access check fails
with `err`, which is not an access-denied error. -/
def FailsWith (t : TunnelWithRoles Site Cluster Err) (s : Site) (err : Err) : Prop :=
  (t.getRemoteCluster (t.getName s) = .error err ∧ t.isNotFound err = false) ∨
  ∃ rc, t.getRemoteCluster (t.getName s) = .ok rc ∧
    t.checkAccessToRemoteCluster rc = some err ∧ t.isAccessDenied err = false

/-- `Omitted t s`: the lookup for the site `s` fails with a not-found error,
or it succeeds and the access check fails with an access-denied error. -/
def Omitted (t : TunnelWithRoles Site Cluster Err) (s : Site) : Prop :=
  (∃ err, t.getRemoteCluster (t.getName s) = .error err ∧ t.isNotFound err = true) ∨
  ∃ rc err, t.getRemoteCluster (t.getName s) = .ok rc ∧
    t.checkAccessToRemoteCluster rc = some err ∧ t.isAccessDenied err = true

/-- `admits t s`: the site `s` is local, or the lookup of its remote-cluster
resource succeeds and the access check on it returns no error. -/
def admits (t : TunnelWithRoles Site Cluster Err) (s : Site) : Bool :=
  t.isLocalSite s ||
    match t.getRemoteCluster (t.getName s) with
    | .ok rc => (t.checkAccessToRemoteCluster rc).isNone
    | .error _ => false

/-- What one iteration of the loop of `GetSites` does with a site. -/
inductive Verdict (Err : Type) where
  | keep
  | skip
  | fail (err : Err)

/-- The verdict of the loop of `GetSites` on the site `s`. -/
def verdict (t : TunnelWithRoles Site Cluster Err) (s : Site) : Verdict Err :=
  if t.isLocalSite s then .keep
  else
    match t.getRemoteCluster (t.getName s) with
    | .error err => if t.isNotFound err then .skip else .fail err
    | .ok rc =>
      match t.checkAccessToRemoteCluster rc with
      | some err => if t.isAccessDenied err then .skip else .fail err
      | none => .keep

/-! ## Example inputs -/

/-- The error kinds of the example. -/
inductive ExErr where
  | notFound
  | accessDenied
  | connection
  | wrapped (e : ExErr)
deriving DecidableEq, Repr

/-- The error kind under the wrappers. -/
def ExErr.kind : ExErr → ExErr
  | .wrapped e => e.kind
  | e => e

/-- The sites of the example: a local site and remote sites by name. -/
inductive ExSite where
  | localSite (name : String)
  | remoteSite (name : String)
deriving DecidableEq, Repr

/-- An example tunnel over the sites `clusters`: the access point knows the
clusters `east`, `west` and `north`, does not find `gone` and fails on any
other name; the roles allow `east`, deny `west` and fail on `north`. -/
def exTunnel (clusters : List ExSite) : TunnelWithRoles ExSite String ExErr where
  tunnelGetSites := .ok clusters
  tunnelGetSite := fun name =>
    match clusters.find? (fun s =>
      match s with
      | .localSite n => n = name
      | .remoteSite n => n = name) with
    | some s => .ok s
    | none => .error .notFound
  isLocalSite := fun s =>
    match s with
    | .localSite _ => true
    | .remoteSite _ => false
  getName := fun s =>
    match s with
    | .localSite n => n
    | .remoteSite n => n
  getRemoteCluster := fun name =>
    if name = "east" ∨ name = "west" ∨ name = "north" then .ok name
    else if name = "gone" then .error .notFound
    else .error .connection
  checkAccessToRemoteCluster := fun rc =>
    if rc = "east" then none
    else if rc = "west" then some .accessDenied
    else some .connection
  isNotFound := fun e => e.kind = .notFound
  isAccessDenied := fun e => e.kind = .accessDenied
  wrap := .wrapped
  opaqueAccessDenied := .wrapped

end Reversetunnel

namespace EventReference

/-! ## Traversal lemmas -/

theorem self_mem_walk (n : Node) : n ∈ n.walk := by
  cases n <;> simp [Node.walk]

theorem walk_subset_walkList {e : Node} {l : List Node} (h : e ∈ l) :
    e.walk ⊆ walkList l := by
  induction l with
  | nil => cases h
  | cons a as ih =>
    intro x hx
    rcases List.mem_cons.1 h with rfl | h
    · simp [walkList, hx]
    · simp [walkList, ih h hx]

theorem child_walk_subset {c p : Node} (h : Child c p) : c.walk ⊆ p.walk := by
  intro x hx
  cases h with
  | selX x sel => simp [Node.walk, hx]
  | selSel x sel =>
    simp only [Node.walk, List.mem_singleton] at hx
    simp [Node.walk, hx]
  | litType t elts => simp [Node.walk, walkOpt, hx]
  | litElt type elts e he => simp [Node.walk, walk_subset_walkList he hx]
  | kvKey key value => simp [Node.walk, hx]
  | kvValue key value => simp [Node.walk, hx]
  | specName doc names type values name hn =>
    simp only [Node.walk, List.mem_singleton] at hx
    subst hx
    simp [Node.walk, hn]
  | specType doc names t values => simp [Node.walk, walkOpt, hx]
  | specValue doc names type values v hv => simp [Node.walk, walk_subset_walkList hv hx]
  | otherChild children c hc => simp [Node.walk, walk_subset_walkList hc hx]

theorem mem_walk_of_sub {n root : Node} (h : Sub n root) : n ∈ root.walk := by
  induction h with
  | refl => exact self_mem_walk _
  | step hc _ ih => exact child_walk_subset hc ih

mutual
theorem sub_of_mem_walk : ∀ (root n : Node), n ∈ root.walk → Sub n root
  | .ident name, n, h => by
    simp only [Node.walk, List.mem_singleton] at h
    subst h; exact Sub.refl _
  | .basicLit value, n, h => by
    simp only [Node.walk, List.mem_singleton] at h
    subst h; exact Sub.refl _
  | .selectorExpr x sel, n, h => by
    simp only [Node.walk, List.mem_cons, List.mem_append, List.mem_singleton,
      List.not_mem_nil, or_false] at h
    rcases h with rfl | h | rfl
    · exact Sub.refl _
    · exact Sub.step (Child.selX x sel) (sub_of_mem_walk x n h)
    · exact Sub.step (Child.selSel x sel) (Sub.refl _)
  | .compositeLit type elts, n, h => by
    simp only [Node.walk, List.mem_cons, List.mem_append] at h
    rcases h with rfl | h | h
    · exact Sub.refl _
    · obtain ⟨t, rfl, hs⟩ := sub_of_mem_walkOpt type n h
      exact Sub.step (Child.litType t elts) hs
    · obtain ⟨e, he, hs⟩ := sub_of_mem_walkList elts n h
      exact Sub.step (Child.litElt type elts e he) hs
  | .keyValueExpr key value, n, h => by
    simp only [Node.walk, List.mem_cons, List.mem_append] at h
    rcases h with rfl | h | h
    · exact Sub.refl _
    · exact Sub.step (Child.kvKey key value) (sub_of_mem_walk key n h)
    · exact Sub.step (Child.kvValue key value) (sub_of_mem_walk value n h)
  | .valueSpec doc names type values, n, h => by
    simp only [Node.walk, List.mem_cons, List.mem_append, List.mem_map] at h
    rcases h with rfl | ⟨name, hn, rfl⟩ | h | h
    · exact Sub.refl _
    · exact Sub.step (Child.specName doc names type values name hn) (Sub.refl _)
    · obtain ⟨t, rfl, hs⟩ := sub_of_mem_walkOpt type n h
      exact Sub.step (Child.specType doc names t values) hs
    · obtain ⟨v, hv, hs⟩ := sub_of_mem_walkList values n h
      exact Sub.step (Child.specValue doc names type values v hv) hs
  | .other children, n, h => by
    simp only [Node.walk, List.mem_cons] at h
    rcases h with rfl | h
    · exact Sub.refl _
    · obtain ⟨c, hc, hs⟩ := sub_of_mem_walkList children n h
      exact Sub.step (Child.otherChild children c hc) hs
theorem sub_of_mem_walkOpt : ∀ (o : Option Node) (n : Node), n ∈ walkOpt o →
    ∃ t, o = some t ∧ Sub n t
  | none, n, h => by simp [walkOpt] at h
  | some t, n, h => ⟨t, rfl, sub_of_mem_walk t n (by simpa [walkOpt] using h)⟩
theorem sub_of_mem_walkList : ∀ (l : List Node) (n : Node), n ∈ walkList l →
    ∃ t ∈ l, Sub n t
  | [], n, h => by simp [walkList] at h
  | a :: as, n, h => by
    simp only [walkList, List.mem_append] at h
    rcases h with h | h
    · exact ⟨a, List.mem_cons_self _ _, sub_of_mem_walk a n h⟩
    · obtain ⟨t, ht, hs⟩ := sub_of_mem_walkList as n h
      exact ⟨t, List.mem_cons_of_mem _ ht, hs⟩
end

/-- The traversal visits exactly the nodes of the tree. -/
theorem mem_walk_iff (root n : Node) : n ∈ root.walk ↔ Sub n root :=
  ⟨sub_of_mem_walk root n, mem_walk_of_sub⟩


/-! ## Pass 1: what enters the map -/

theorem mem_mapSet {m : List String} {k X : String} : X ∈ mapSet m k ↔ X ∈ m ∨ X = k := by
  unfold mapSet
  split
  · constructor
    · exact Or.inl
    · rintro (h | rfl)
      · exact h
      · assumption
  · simp [or_comm]

theorem mem_foldl_iff {α : Type} (step : List String → α → List String)
    (P : α → String → Prop)
    (hstep : ∀ acc a X, X ∈ step acc a ↔ X ∈ acc ∨ P a X) (l : List α) :
    ∀ (acc : List String) (X : String),
      X ∈ l.foldl step acc ↔ X ∈ acc ∨ ∃ a ∈ l, P a X := by
  induction l with
  | nil => intro acc X; simp
  | cons a as ih =>
    intro acc X
    rw [List.foldl_cons, ih, hstep]
    simp only [List.mem_cons, exists_eq_or_imp, or_assoc]

theorem mem_typeFieldStep (acc : List String) (el : Node) (X : String) :
    X ∈ typeFieldStep acc el ↔ X ∈ acc ∨ IsTypeField el X := by
  rcases el with _ | _ | _ | _ | ⟨key, value⟩ | _ | _ <;>
    try (simp [typeFieldStep, IsTypeField])
  rcases key with name | _ | _ | _ | _ | _ | _ <;>
    try (simp [typeFieldStep, IsTypeField])
  by_cases hname : name = "Type"
  · subst hname
    rcases value with _ | _ | ⟨p, sel⟩ | _ | _ | _ | _ <;>
      simp [typeFieldStep, IsTypeField, mem_mapSet, eq_comm]
  · simp [typeFieldStep, IsTypeField, hname]

theorem mem_discoverVisit (acc : List String) (n : Node) (X : String) :
    X ∈ discoverVisit acc n ↔ X ∈ acc ∨ IsEventTag n X := by
  rcases n with _ | _ | _ | _ | ⟨key, value⟩ | _ | _ <;>
    try (simp [discoverVisit, IsEventTag])
  rcases key with name | _ | _ | _ | _ | _ | _ <;>
    try (simp [discoverVisit, IsEventTag])
  by_cases hname : name = "Metadata"
  · subst hname
    rcases value with _ | _ | _ | ⟨type, elts⟩ | _ | _ | _ <;>
      try (simp [discoverVisit, IsEventTag])
    rcases type with _ | t
    · simp [discoverVisit, IsEventTag]
    · rcases t with _ | _ | ⟨q, sel⟩ | _ | _ | _ | _ <;>
        try (simp [discoverVisit, IsEventTag])
      by_cases hsel : sel = "Metadata"
      · subst hsel
        simp only [discoverVisit, IsEventTag, ne_eq, not_true, if_false, if_true]
        rw [mem_foldl_iff typeFieldStep IsTypeField mem_typeFieldStep]
        simp only [Node.keyValueExpr.injEq, Node.compositeLit.injEq, Option.some.injEq,
          Node.selectorExpr.injEq, true_and, and_true]
        constructor
        · rintro (h | h)
          · exact Or.inl h
          · exact Or.inr ⟨q, elts, ⟨rfl, rfl⟩, h⟩
        · rintro (h | ⟨_, _, ⟨rfl, rfl⟩, h⟩)
          · exact Or.inl h
          · exact Or.inr h
      · simp [discoverVisit, IsEventTag, hsel]
  · simp [discoverVisit, IsEventTag, hname]

/-- The map after pass 1 holds exactly the trailing identifiers of the event
tags that occur in the files. -/
theorem mem_discover_iff (gofiles : List File) (X : String) :
    X ∈ discover gofiles ↔ ∃ n, Occurs n gofiles ∧ IsEventTag n X := by
  have hdecl : ∀ acc d X, X ∈ discoverDecl acc d ↔ X ∈ acc ∨ ∃ n, Sub n d ∧ IsEventTag n X := by
    intro acc d X
    unfold discoverDecl
    rw [mem_foldl_iff discoverVisit IsEventTag mem_discoverVisit]
    simp only [mem_walk_iff]
  have hfile : ∀ acc (f : File) X, X ∈ discoverFile acc f ↔
      X ∈ acc ∨ ∃ d ∈ f.Decls, ∃ n, Sub n d ∧ IsEventTag n X := by
    intro acc f X
    unfold discoverFile
    rw [mem_foldl_iff discoverDecl (fun d X => ∃ n, Sub n d ∧ IsEventTag n X) hdecl]
  unfold discover
  rw [mem_foldl_iff discoverFile
    (fun (f : File) X => ∃ d ∈ f.Decls, ∃ n, Sub n d ∧ IsEventTag n X) hfile]
  simp only [List.not_mem_nil, false_or, Occurs]
  constructor
  · rintro ⟨f, hf, d, hd, n, hs, ht⟩
    exact ⟨n, ⟨f, hf, d, hd, hs⟩, ht⟩
  · rintro ⟨n, ⟨f, hf, d, hd, hs⟩, ht⟩
    exact ⟨f, hf, d, hd, n, hs, ht⟩

/-! ## String lemmas -/

theorem hasPrefix_iff (s pre : String) : HasPrefix s pre = true ↔ ∃ r : String, s = pre ++ r := by
  unfold HasPrefix
  rw [List.isPrefixOf_iff_prefix]
  constructor
  · rintro ⟨t, ht⟩
    exact ⟨⟨t⟩, String.ext (by simp [ht])⟩
  · rintro ⟨r, rfl⟩
    exact ⟨r.data, by simp⟩

theorem replaceScan_skip (old new : List Char) (xs r : List Char) :
    replaceScan old new xs.length (xs ++ r) = replaceScan old new 0 r := by
  induction xs with
  | nil => rfl
  | cons x xs ih => simpa [replaceScan] using ih

theorem replaceScan_old_append (o : Char) (os new r : List Char) :
    replaceScan (o :: os) new 0 ((o :: os) ++ r) =
      new ++ replaceScan (o :: os) new 0 r := by
  have hp : (o :: os).isPrefixOf (o :: (os ++ r)) = true := by
    rw [List.isPrefixOf_iff_prefix]
    exact ⟨r, rfl⟩
  have h1 : replaceScan (o :: os) new 0 (o :: (os ++ r)) =
      new ++ replaceScan (o :: os) new os.length (os ++ r) := by
    rw [replaceScan, if_pos hp]
    simp
  exact h1.trans (congrArg (new ++ ·) (replaceScan_skip (o :: os) new os r))

theorem replaceScan_no_occurrence (old new : List Char) :
    ∀ s : List Char, ¬ old <:+: s → replaceScan old new 0 s = s := by
  intro s
  induction s with
  | nil => intro _; rfl
  | cons c cs ih =>
    intro h
    have hp : old.isPrefixOf (c :: cs) = false := by
      rw [Bool.eq_false_iff]
      intro hpre
      exact h ((List.isPrefixOf_iff_prefix.1 hpre).isInfix)
    have ht : ¬ old <:+: cs := fun hi => h (hi.trans (List.suffix_cons c cs).isInfix)
    simp [replaceScan, hp, ih ht]

/-- With a non-empty `old`, `ReplaceAll` replaces a leading occurrence and
goes on with the rest of the string. -/
theorem replaceAll_prefix (old new r : String) (hold : old ≠ "") :
    ReplaceAll (old ++ r) old new = new ++ ReplaceAll r old new := by
  rcases old with ⟨_ | ⟨o, os⟩⟩
  · exact absurd rfl hold
  · apply String.ext
    simp only [ReplaceAll, String.data_append]
    exact replaceScan_old_append o os new.data r.data

/-- A string in which a non-empty `old` does not occur is left as it is. -/
theorem replaceAll_no_occurrence (s old new : String) (hold : old ≠ "")
    (h : ¬ old.data <:+: s.data) : ReplaceAll s old new = s := by
  rcases old with ⟨_ | ⟨o, os⟩⟩
  · exact absurd rfl hold
  · apply String.ext
    simp only [ReplaceAll]
    exact replaceScan_no_occurrence (o :: os) new.data s.data h

theorem replaceScan_single (q b : Char) (s : List Char) :
    replaceScan [q] [b] 0 s = s.map (fun c => if c = q then b else c) := by
  induction s with
  | nil => rfl
  | cons c cs ih =>
    by_cases hc : c = q
    · subst hc
      simp [replaceScan, List.isPrefixOf, ih]
    · have hq : ¬ q = c := fun h => hc h.symm
      simp [replaceScan, List.isPrefixOf, ih, hc, hq]

/-- The normalized literal, character by character. -/
theorem normalize_data (value : String) :
    (normalize value).data =
      value.data.map (fun c => if c = Char.ofNat 34 then Char.ofNat 96 else c) := by
  unfold normalize ReplaceAll
  exact replaceScan_single (Char.ofNat 34) (Char.ofNat 96) value.data

/-! ## Pass 2 as a sequence of contributions -/

theorem appendRuns_ok_nil (b : Except Panic (List EventData)) :
    appendRuns (.ok []) b = b := by
  cases b <;> simp [appendRuns]

theorem appendRuns_nil_right (a : Except Panic (List EventData)) :
    appendRuns a (.ok []) = a := by
  cases a <;> simp [appendRuns]

theorem appendRuns_assoc (a b c : Except Panic (List EventData)) :
    appendRuns (appendRuns a b) c = appendRuns a (appendRuns b c) := by
  cases a <;> cases b <;> cases c <;> simp [appendRuns]

theorem collect_append {α : Type} (g : α → Except Panic (List EventData)) (l₁ l₂ : List α) :
    collect g (l₁ ++ l₂) = appendRuns (collect g l₁) (collect g l₂) := by
  induction l₁ with
  | nil => simp [collect, appendRuns_ok_nil]
  | cons a as ih => simp [collect, ih, appendRuns_assoc]

theorem collect_congr {α : Type} (g₁ g₂ : α → Except Panic (List EventData)) (l : List α)
    (h : ∀ a ∈ l, g₁ a = g₂ a) : collect g₁ l = collect g₂ l := by
  induction l with
  | nil => rfl
  | cons a as ih =>
    simp only [collect]
    rw [h a (List.mem_cons_self _ _), ih (fun b hb => h b (List.mem_cons_of_mem _ hb))]

theorem collect_flatMap {α β : Type} (g : β → Except Panic (List EventData))
    (k : α → List β) (l : List α) :
    collect g (l.flatMap k) = collect (fun a => collect g (k a)) l := by
  induction l with
  | nil => rfl
  | cons a as ih => simp [List.flatMap_cons, collect_append, collect, ih]

theorem collect_eq_nil {α : Type} (g : α → Except Panic (List EventData)) (l : List α)
    (h : ∀ a ∈ l, g a = .ok []) : collect g l = .ok [] := by
  induction l with
  | nil => rfl
  | cons a as ih =>
    simp only [collect]
    rw [h a (List.mem_cons_self _ _), ih (fun b hb => h b (List.mem_cons_of_mem _ hb))]
    rfl

theorem foldlM_eq_collect {α : Type}
    (step : List EventData → α → Except Panic (List EventData))
    (g : α → Except Panic (List EventData))
    (hstep : ∀ acc a, step acc a = appendRuns (.ok acc) (g a)) (l : List α) :
    ∀ acc, l.foldlM step acc = appendRuns (.ok acc) (collect g l) := by
  induction l with
  | nil => intro acc; simp [collect, appendRuns, pure, Except.pure]
  | cons a as ih =>
    intro acc
    rw [List.foldlM_cons, hstep]
    cases hg : g a with
    | error e => simp [collect, hg, appendRuns, bind, Except.bind]
    | ok r =>
      simp only [collect, hg, appendRuns, bind, Except.bind]
      rw [ih]
      cases collect g as <;> simp [appendRuns]

theorem specRecords_literal (eventTypes : List String) (doc : Option String) (value : String)
    (rest : List Node) (names : List String) :
    specRecords eventTypes doc (.basicLit value :: rest) names =
      .ok ((candidateNames eventTypes names).map (recordFor doc value)) := by
  unfold specRecords
  split
  · next h => simp [h]
  · rfl

theorem candidateNames_cons_mem {eventTypes : List String} {n : String} (ns : List String)
    (h : n ∈ eventTypes) :
    candidateNames eventTypes (n :: ns) = n :: candidateNames eventTypes ns := by
  simp [candidateNames, List.filter_cons, h]

theorem candidateNames_cons_not_mem {eventTypes : List String} {n : String}
    (ns : List String) (h : n ∉ eventTypes) :
    candidateNames eventTypes (n :: ns) = candidateNames eventTypes ns := by
  simp [candidateNames, List.filter_cons, h]

theorem namesLoop_eq (eventTypes : List String) (doc : Option String) (values : List Node)
    (names : List String) :
    ∀ acc, namesLoop eventTypes doc values names acc =
      appendRuns (.ok acc) (specRecords eventTypes doc values names) := by
  induction names with
  | nil => intro acc; simp [namesLoop, specRecords, candidateNames, appendRuns]
  | cons n ns ih =>
    intro acc
    by_cases hn : n ∈ eventTypes
    · rcases values with _ | ⟨v, rest⟩
      · simp [namesLoop, hn, specRecords, candidateNames_cons_mem ns hn, firstLiteral,
          appendRuns]
      · cases v with
        | basicLit value =>
          simp only [namesLoop, hn, if_true]
          rw [ih, specRecords_literal, specRecords_literal, candidateNames_cons_mem ns hn]
          simp [appendRuns, recordFor]
        | _ =>
          simp [namesLoop, hn, specRecords, candidateNames_cons_mem ns hn, firstLiteral,
            appendRuns]
    · simp only [namesLoop, hn, if_false]
      rw [ih]
      simp [specRecords, candidateNames_cons_not_mem ns hn]

theorem extractVisit_eq (eventTypes : List String) (acc : List EventData) (n : Node) :
    extractVisit eventTypes acc n = appendRuns (.ok acc) (nodeRecords eventTypes n) := by
  cases n <;> simp [extractVisit, nodeRecords, appendRuns, namesLoop_eq]

theorem extractDecl_eq (eventTypes : List String) (acc : List EventData) (d : Node) :
    extractDecl eventTypes acc d =
      appendRuns (.ok acc) (collect (nodeRecords eventTypes) d.walk) :=
  foldlM_eq_collect _ _ (extractVisit_eq eventTypes) d.walk acc

theorem extractFile_eq (eventTypes : List String) (acc : List EventData) (f : File) :
    extractFile eventTypes acc f =
      appendRuns (.ok acc)
        (collect (fun d => collect (nodeRecords eventTypes) d.walk) f.Decls) :=
  foldlM_eq_collect _ _ (extractDecl_eq eventTypes) f.Decls acc

/-- Pass 2 file by file. -/
theorem extract_eq_collect_files (gofiles : List File) (eventTypes : List String) :
    extract gofiles eventTypes =
      collect (fun f : File =>
        collect (fun d => collect (nodeRecords eventTypes) d.walk) f.Decls) gofiles := by
  unfold extract
  rw [foldlM_eq_collect _ _ (extractFile_eq eventTypes) gofiles [], appendRuns_ok_nil]

/-- Pass 2 node by node. -/
theorem extract_eq_collect (gofiles : List File) (eventTypes : List String) :
    extract gofiles eventTypes = collect (nodeRecords eventTypes) (allNodes gofiles) := by
  rw [extract_eq_collect_files, allNodes, collect_flatMap]
  apply collect_congr
  intro f _
  rw [collect_flatMap]

/-! ## Pass 2: records and occurrences -/

theorem appendRuns_eq_ok {a b : Except Panic (List EventData)} {r : List EventData}
    (h : appendRuns a b = .ok r) : ∃ r₁ r₂, a = .ok r₁ ∧ b = .ok r₂ ∧ r = r₁ ++ r₂ := by
  cases a with
  | error e => simp [appendRuns] at h
  | ok r₁ =>
    cases b with
    | error e => simp [appendRuns] at h
    | ok r₂ =>
      simp only [appendRuns, Except.ok.injEq] at h
      exact ⟨r₁, r₂, rfl, rfl, h.symm⟩

theorem collect_ok_forall₂ {α β : Type} (R : β → EventData → Prop)
    (g : α → Except Panic (List EventData)) (occ : α → List β)
    (hg : ∀ a r, g a = .ok r → List.Forall₂ R (occ a) r) (l : List α) :
    ∀ recs, collect g l = .ok recs → List.Forall₂ R (l.flatMap occ) recs := by
  induction l with
  | nil =>
    intro recs h
    simp only [collect, Except.ok.injEq] at h
    subst h
    exact List.Forall₂.nil
  | cons a as ih =>
    intro recs h
    obtain ⟨r₁, r₂, h₁, h₂, rfl⟩ := appendRuns_eq_ok h
    rw [List.flatMap_cons]
    exact List.rel_append (hg a r₁ h₁) (ih r₂ h₂)

theorem firstLiteral_eq_ok {values : List Node} {value : String}
    (h : firstLiteral values = .ok value) : ∃ rest, values = .basicLit value :: rest := by
  rcases values with _ | ⟨v, rest⟩
  · simp [firstLiteral] at h
  · cases v <;> simp [firstLiteral] at h
    subst h
    exact ⟨rest, rfl⟩

theorem nodeRecords_ok_forall₂ (eventTypes : List String) (n : Node) (r : List EventData)
    (h : nodeRecords eventTypes n = .ok r) :
    List.Forall₂ Matches (nodeOccurrences eventTypes n) r := by
  cases n with
  | valueSpec doc names type values =>
    simp only [nodeRecords, specRecords] at h
    simp only [nodeOccurrences]
    split at h
    · next hnil =>
      simp only [Except.ok.injEq] at h
      subst h
      rw [hnil]
      exact List.Forall₂.nil
    · cases hfl : firstLiteral values with
      | error e => simp [hfl] at h
      | ok value =>
        simp only [hfl, Except.ok.injEq] at h
        subst h
        obtain ⟨rest, hrest⟩ := firstLiteral_eq_ok hfl
        rw [List.forall₂_map_left_iff, List.forall₂_map_right_iff, List.forall₂_same]
        intro x _
        exact ⟨value, rest, hrest, rfl⟩
  | _ =>
    simp only [nodeRecords, Except.ok.injEq] at h
    subst h
    exact List.Forall₂.nil

/-- When pass 2 completes, its records are those of the occurrences of
candidate names, one for one and in order. -/
theorem extract_ok_forall₂ (gofiles : List File) (eventTypes : List String)
    (recs : List EventData) (h : extract gofiles eventTypes = .ok recs) :
    List.Forall₂ Matches (candidateOccurrences gofiles eventTypes) recs := by
  rw [extract_eq_collect] at h
  exact collect_ok_forall₂ Matches _ _ (nodeRecords_ok_forall₂ eventTypes) _ recs h

theorem forall₂_mem_right {α β : Type} {R : α → β → Prop} {l₁ : List α} {l₂ : List β}
    (h : List.Forall₂ R l₁ l₂) : ∀ b ∈ l₂, ∃ a ∈ l₁, R a b := by
  induction h with
  | nil => intro b hb; cases hb
  | cons hab _ ih =>
    intro b hb
    rcases List.mem_cons.1 hb with rfl | hb
    · exact ⟨_, List.mem_cons_self _ _, hab⟩
    · obtain ⟨a, ha, hr⟩ := ih b hb
      exact ⟨a, List.mem_cons_of_mem _ ha, hr⟩

theorem mem_allNodes_iff (gofiles : List File) (n : Node) :
    n ∈ allNodes gofiles ↔ Occurs n gofiles := by
  simp only [allNodes, List.mem_flatMap, mem_walk_iff, Occurs]

/-- Pass 2 reads the map only at the declared names. -/
theorem nodeRecords_congr (c₁ c₂ : List String) (n : Node)
    (h : ∀ doc names type values, n = .valueSpec doc names type values →
      ∀ x ∈ names, (x ∈ c₁ ↔ x ∈ c₂)) :
    nodeRecords c₁ n = nodeRecords c₂ n := by
  cases n with
  | valueSpec doc names type values =>
    have hc : candidateNames c₁ names = candidateNames c₂ names := by
      unfold candidateNames
      apply List.filter_congr
      intro x hx
      simp [h doc names type values rfl x hx]
    simp only [nodeRecords, specRecords, hc]
  | _ => rfl

theorem extract_congr (gofiles : List File) (c₁ c₂ : List String)
    (h : ∀ x, DeclaredIn gofiles x → (x ∈ c₁ ↔ x ∈ c₂)) :
    extract gofiles c₁ = extract gofiles c₂ := by
  rw [extract_eq_collect, extract_eq_collect]
  apply collect_congr
  intro n hn
  apply nodeRecords_congr
  rintro doc names type values rfl x hx
  obtain ⟨f, hf, d, hd, hs⟩ := (mem_allNodes_iff gofiles _).1 hn
  exact h x ⟨f, hf, d, hd, doc, names, type, values, hs, hx⟩

theorem nodeRecords_of_no_candidate (eventTypes : List String) (n : Node)
    (h : ∀ doc names type values, n = .valueSpec doc names type values →
      ∀ x ∈ names, x ∉ eventTypes) :
    nodeRecords eventTypes n = .ok [] := by
  cases n with
  | valueSpec doc names type values =>
    have hc : candidateNames eventTypes names = [] := by
      unfold candidateNames
      rw [List.filter_eq_nil_iff]
      intro x hx
      simp [h doc names type values rfl x hx]
    simp [nodeRecords, specRecords, hc]
  | _ => rfl

/-- A declaration none of whose value specifications declares a candidate
name contributes no record and no panic. -/
theorem declRecords_of_no_candidate (eventTypes : List String) (d : Node)
    (h : ∀ n, Declares d n → n ∉ eventTypes) :
    collect (nodeRecords eventTypes) d.walk = .ok [] := by
  apply collect_eq_nil
  intro n hn
  apply nodeRecords_of_no_candidate
  rintro doc names type values rfl x hx
  exact h x ⟨doc, names, type, values, (mem_walk_iff _ _).1 hn, hx⟩

/-- With an empty map pass 2 emits nothing and cannot panic. -/
theorem extract_nil (gofiles : List File) : extract gofiles [] = .ok [] := by
  rw [extract_eq_collect]
  apply collect_eq_nil
  intro n _
  apply nodeRecords_of_no_candidate
  intro _ _ _ _ _ x _
  exact List.not_mem_nil x

/-! ## Declared names -/

theorem declares_iff (d : Node) (n : String) : Declares d n ↔ n ∈ declaredNames d := by
  simp only [Declares, declaredNames, List.mem_flatMap, mem_walk_iff]
  constructor
  · rintro ⟨doc, names, type, values, hs, hn⟩
    exact ⟨_, hs, hn⟩
  · rintro ⟨node, hs, hn⟩
    cases node with
    | valueSpec doc names type values => exact ⟨doc, names, type, values, hs, hn⟩
    | _ => simp [nodeNames] at hn

theorem declaredIn_iff (gofiles : List File) (n : String) :
    DeclaredIn gofiles n ↔ n ∈ declaredNamesIn gofiles := by
  simp only [DeclaredIn, declaredNamesIn, List.mem_flatMap, declares_iff]

theorem collect_error_of_mem {α : Type} (g : α → Except Panic (List EventData))
    (l : List α) (a : α) (e : Panic) (ha : a ∈ l) (he : g a = .error e) :
    ∃ p, collect g l = .error p := by
  induction l with
  | nil => cases ha
  | cons b bs ih =>
    simp only [collect]
    cases hb : g b with
    | error p => exact ⟨p, rfl⟩
    | ok r =>
      rcases List.mem_cons.1 ha with rfl | ha
      · rw [hb] at he; cases he
      · obtain ⟨p, hp⟩ := ih ha
        exact ⟨p, by simp [appendRuns, hp]⟩

/-- The map is empty after pass 1 exactly when no event tag occurs. -/
theorem discover_eq_nil_iff (gofiles : List File) :
    discover gofiles = [] ↔ ∀ n X, Occurs n gofiles → ¬ IsEventTag n X := by
  rw [List.eq_nil_iff_forall_not_mem]
  constructor
  · intro h n X hocc htag
    exact h X ((mem_discover_iff gofiles X).2 ⟨n, hocc, htag⟩)
  · intro h X hX
    obtain ⟨n, hocc, htag⟩ := (mem_discover_iff gofiles X).1 hX
    exact h n X hocc htag

/-! ## Pass 1 from any map; the map has no duplicates -/

theorem mem_discoverFrom_iff (gofiles : List File) (acc : List String) (X : String) :
    X ∈ gofiles.foldl discoverFile acc ↔ X ∈ acc ∨ ∃ n, Occurs n gofiles ∧ IsEventTag n X := by
  have hdecl : ∀ acc d X, X ∈ discoverDecl acc d ↔ X ∈ acc ∨ ∃ n, Sub n d ∧ IsEventTag n X := by
    intro acc d X
    unfold discoverDecl
    rw [mem_foldl_iff discoverVisit IsEventTag mem_discoverVisit]
    simp only [mem_walk_iff]
  have hfile : ∀ acc (f : File) X, X ∈ discoverFile acc f ↔
      X ∈ acc ∨ ∃ d ∈ f.Decls, ∃ n, Sub n d ∧ IsEventTag n X := by
    intro acc f X
    unfold discoverFile
    rw [mem_foldl_iff discoverDecl (fun d X => ∃ n, Sub n d ∧ IsEventTag n X) hdecl]
  rw [mem_foldl_iff discoverFile
    (fun (f : File) X => ∃ d ∈ f.Decls, ∃ n, Sub n d ∧ IsEventTag n X) hfile]
  simp only [Occurs]
  constructor
  · rintro (h | ⟨f, hf, d, hd, n, hs, ht⟩)
    · exact Or.inl h
    · exact Or.inr ⟨n, ⟨f, hf, d, hd, hs⟩, ht⟩
  · rintro (h | ⟨n, ⟨f, hf, d, hd, hs⟩, ht⟩)
    · exact Or.inl h
    · exact Or.inr ⟨f, hf, d, hd, n, hs, ht⟩

theorem occurs_append (n : Node) (a b : List File) :
    Occurs n (a ++ b) ↔ Occurs n a ∨ Occurs n b := by
  simp only [Occurs, List.mem_append]
  constructor
  · rintro ⟨f, hf | hf, h⟩
    · exact Or.inl ⟨f, hf, h⟩
    · exact Or.inr ⟨f, hf, h⟩
  · rintro (⟨f, hf, h⟩ | ⟨f, hf, h⟩)
    · exact ⟨f, Or.inl hf, h⟩
    · exact ⟨f, Or.inr hf, h⟩

theorem occurs_iff_exists_file (n : Node) (a : List File) :
    Occurs n a ↔ ∃ f ∈ a, Occurs n [f] := by
  constructor
  · rintro ⟨f, hf, h⟩
    exact ⟨f, hf, f, List.mem_singleton.2 rfl, h⟩
  · rintro ⟨f, hf, g, hg, h⟩
    rw [List.mem_singleton] at hg
    subst hg
    exact ⟨g, hf, h⟩

theorem occurs_repeated_decl (n d : Node) (ds : List Node) :
    Occurs n [{ Decls := d :: d :: ds }] ↔ Occurs n [{ Decls := d :: ds }] := by
  constructor
  · rintro ⟨f, hf, e, he, hs⟩
    rw [List.mem_singleton] at hf
    subst hf
    refine ⟨_, List.mem_singleton.2 rfl, e, ?_, hs⟩
    rcases List.mem_cons.1 he with h | h
    · exact h ▸ List.mem_cons_self _ _
    · exact h
  · rintro ⟨f, hf, e, he, hs⟩
    rw [List.mem_singleton] at hf
    subst hf
    exact ⟨_, List.mem_singleton.2 rfl, e, List.mem_cons_of_mem _ he, hs⟩

theorem occurs_of_perm (n : Node) {a b : List File} (h : a.Perm b) :
    Occurs n a ↔ Occurs n b := by
  simp only [Occurs, h.mem_iff]

theorem nodup_mapSet {m : List String} (k : String) (h : m.Nodup) : (mapSet m k).Nodup := by
  unfold mapSet
  split
  · exact h
  · next hk => exact List.nodup_cons.2 ⟨hk, h⟩

theorem nodup_foldl {α : Type} (step : List String → α → List String)
    (hstep : ∀ acc a, acc.Nodup → (step acc a).Nodup) (l : List α) :
    ∀ acc : List String, acc.Nodup → (l.foldl step acc).Nodup := by
  induction l with
  | nil => intro acc h; exact h
  | cons a as ih => intro acc h; exact ih _ (hstep acc a h)

theorem nodup_typeFieldStep (acc : List String) (el : Node) (h : acc.Nodup) :
    (typeFieldStep acc el).Nodup := by
  unfold typeFieldStep
  repeat' split
  all_goals first | exact h | exact nodup_mapSet _ h

theorem nodup_discoverVisit (acc : List String) (n : Node) (h : acc.Nodup) :
    (discoverVisit acc n).Nodup := by
  unfold discoverVisit
  repeat' split
  all_goals first | exact h | exact nodup_foldl typeFieldStep nodup_typeFieldStep _ _ h

theorem nodup_discoverFrom (gofiles : List File) (acc : List String) (h : acc.Nodup) :
    (gofiles.foldl discoverFile acc).Nodup := by
  apply nodup_foldl discoverFile _ gofiles acc h
  intro acc f hacc
  apply nodup_foldl discoverDecl _ f.Decls acc hacc
  intro acc d hacc
  exact nodup_foldl discoverVisit nodup_discoverVisit d.walk acc hacc

/-! ## Pass 2: when it completes -/

theorem forall₂_mem_left {α β : Type} {R : α → β → Prop} {l₁ : List α} {l₂ : List β}
    (h : List.Forall₂ R l₁ l₂) : ∀ a ∈ l₁, ∃ b ∈ l₂, R a b := by
  induction h with
  | nil => intro a ha; cases ha
  | cons hab _ ih =>
    intro a ha
    rcases List.mem_cons.1 ha with rfl | ha
    · exact ⟨_, List.mem_cons_self _ _, hab⟩
    · obtain ⟨b, hb, hr⟩ := ih a ha
      exact ⟨b, List.mem_cons_of_mem _ hb, hr⟩

theorem collect_ok_iff {α : Type} (g : α → Except Panic (List EventData)) (l : List α) :
    (∃ r, collect g l = .ok r) ↔ ∀ a ∈ l, ∃ r, g a = .ok r := by
  induction l with
  | nil => simp [collect]
  | cons a as ih =>
    simp only [collect, List.mem_cons, forall_eq_or_imp]
    rw [← ih]
    constructor
    · rintro ⟨r, hr⟩
      obtain ⟨r₁, r₂, h₁, h₂, _⟩ := appendRuns_eq_ok hr
      exact ⟨⟨r₁, h₁⟩, ⟨r₂, h₂⟩⟩
    · rintro ⟨⟨r₁, h₁⟩, ⟨r₂, h₂⟩⟩
      exact ⟨r₁ ++ r₂, by rw [h₁, h₂]; rfl⟩

theorem collect_error_first {α : Type} (g : α → Except Panic (List EventData)) (l : List α)
    (p : Panic) (h : collect g l = .error p) :
    ∃ before a after, l = before ++ a :: after ∧ (∀ b ∈ before, ∃ r, g b = .ok r) ∧
      g a = .error p := by
  induction l with
  | nil => simp [collect] at h
  | cons a as ih =>
    simp only [collect] at h
    cases ha : g a with
    | error q =>
      rw [ha] at h
      simp only [appendRuns, Except.error.injEq] at h
      subst h
      exact ⟨[], a, as, rfl, by simp, ha⟩
    | ok r =>
      rw [ha] at h
      cases has : collect g as with
      | ok rs => rw [has] at h; simp [appendRuns] at h
      | error q =>
        rw [has] at h
        simp only [appendRuns, Except.error.injEq] at h
        subst h
        obtain ⟨before, b, after, hl, hbefore, hb⟩ := ih has
        refine ⟨a :: before, b, after, by rw [hl]; rfl, ?_, hb⟩
        intro c hc
        rcases List.mem_cons.1 hc with rfl | hc
        · exact ⟨r, ha⟩
        · exact hbefore c hc

theorem candidateNames_eq_nil_iff (eventTypes names : List String) :
    candidateNames eventTypes names = [] ↔ ¬ ∃ n ∈ names, n ∈ eventTypes := by
  unfold candidateNames
  rw [List.filter_eq_nil_iff]
  simp

theorem nodeRecords_ok_iff (eventTypes : List String) (node : Node) :
    (∃ r, nodeRecords eventTypes node = .ok r) ↔ LiteralFirst eventTypes node := by
  cases node with
  | valueSpec doc names type values =>
    simp only [nodeRecords, LiteralFirst, Node.valueSpec.injEq]
    constructor
    · rintro ⟨r, hr⟩ _ _ _ _ ⟨_, rfl, _, rfl⟩ hcand
      have hne : candidateNames eventTypes names ≠ [] := fun h =>
        (candidateNames_eq_nil_iff _ _).1 h hcand
      simp only [specRecords, hne, if_false] at hr
      cases hfl : firstLiteral values with
      | error e => simp [hfl] at hr
      | ok value =>
        obtain ⟨rest, hrest⟩ := firstLiteral_eq_ok hfl
        exact ⟨value, rest, hrest⟩
    · intro h
      by_cases hcand : ∃ n ∈ names, n ∈ eventTypes
      · obtain ⟨value, rest, rfl⟩ := h doc names type values ⟨rfl, rfl, rfl, rfl⟩ hcand
        exact ⟨_, specRecords_literal _ _ _ _ _⟩
      · have hnil := (candidateNames_eq_nil_iff eventTypes names).2 hcand
        exact ⟨[], by simp [specRecords, hnil]⟩
  | _ =>
    simp only [nodeRecords, LiteralFirst]
    constructor
    · intro _ _ _ _ _ h
      cases h
    · intro _
      exact ⟨[], rfl⟩

theorem nodeRecords_error (eventTypes : List String) (node : Node) (p : Panic)
    (h : nodeRecords eventTypes node = .error p) : PanicsAt eventTypes node p := by
  cases node with
  | valueSpec doc names type values =>
    simp only [nodeRecords, specRecords] at h
    split at h
    · cases h
    · next hne =>
      have hcand : ∃ n ∈ names, n ∈ eventTypes := by
        by_contra hc
        exact hne ((candidateNames_eq_nil_iff _ _).2 hc)
      refine ⟨doc, names, type, values, rfl, hcand, ?_⟩
      rcases values with _ | ⟨v, rest⟩
      · simp only [firstLiteral, Except.error.injEq] at h
        exact Or.inl ⟨rfl, h.symm⟩
      · right
        cases v with
        | basicLit value => simp [firstLiteral] at h
        | _ =>
          simp only [firstLiteral, Except.error.injEq] at h
          refine ⟨_, rest, rfl, ?_, h.symm⟩
          intro value hv
          cases hv
  | _ => simp [nodeRecords] at h

/-- The run ends in the panic of an element when every element before it
contributes records. -/
theorem collect_error_at {α : Type} (g : α → Except Panic (List EventData))
    (before : List α) (a : α) (after : List α) (p : Panic)
    (hbefore : ∀ b ∈ before, ∃ r, g b = .ok r) (ha : g a = .error p) :
    collect g (before ++ a :: after) = .error p := by
  induction before with
  | nil => simp [collect, ha, appendRuns]
  | cons b bs ih =>
    obtain ⟨r, hr⟩ := hbefore b (List.mem_cons_self _ _)
    have hbs : ∀ c ∈ bs, ∃ r, g c = .ok r := fun c hc => hbefore c (List.mem_cons_of_mem _ hc)
    have hrest := ih hbs
    show appendRuns (g b) (collect g (bs ++ a :: after)) = .error p
    rw [hr, hrest]
    rfl

/-! ## Claims about pass 1 -/

/-- C1: soundness of the discoverer.  Every identifier `X` in the candidate
set is the trailing identifier of a qualified reference `p.X` that is the
value of a field assignment named `Type` among the elements of a literal
whose type name is `Metadata`, and that literal is the value of a field
assignment named `Metadata` occurring in a declaration of the files. -/
theorem C1_discover_sound (gofiles : List File) (X : String)
    (h : X ∈ discover gofiles) :
    ∃ f ∈ gofiles, ∃ d ∈ f.Decls, ∃ q elts p,
      Sub (.keyValueExpr (.ident "Metadata")
        (.compositeLit (some (.selectorExpr q "Metadata")) elts)) d ∧
      Node.keyValueExpr (.ident "Type") (.selectorExpr p X) ∈ elts := by
  obtain ⟨n, ⟨f, hf, d, hd, hs⟩, q, elts, rfl, el, hel, p, rfl⟩ :=
    (mem_discover_iff gofiles X).1 h
  exact ⟨f, hf, d, hd, q, elts, p, hs, hel⟩

/-- Witness of C1 on the nested file with the qualified type
`events.Metadata`. -/
theorem C1_discover_sound_witness :
    "UserLoginEvent" ∈ discover [nestedFile (.selectorExpr (.ident "events") "Metadata")] ∧
    ∃ f ∈ [nestedFile (.selectorExpr (.ident "events") "Metadata")], ∃ d ∈ f.Decls,
      ∃ q elts p,
        Sub (.keyValueExpr (.ident "Metadata")
          (.compositeLit (some (.selectorExpr q "Metadata")) elts)) d ∧
        Node.keyValueExpr (.ident "Type") (.selectorExpr p "UserLoginEvent") ∈ elts :=
  ⟨by decide, C1_discover_sound _ _ (by decide)⟩

/-- C2: completeness of the discoverer under nesting.  For a field
assignment `Metadata: q.Metadata{...}` at any depth of any declaration of
the files, every field assignment `Type: p.X` among the elements of the
literal puts `X` into the candidate set. -/
theorem C2_discover_complete (gofiles : List File) (f : File) (d q p : Node)
    (elts : List Node) (X : String)
    (hf : f ∈ gofiles) (hd : d ∈ f.Decls)
    (hsub : Sub (.keyValueExpr (.ident "Metadata")
      (.compositeLit (some (.selectorExpr q "Metadata")) elts)) d)
    (hel : Node.keyValueExpr (.ident "Type") (.selectorExpr p X) ∈ elts) :
    X ∈ discover gofiles :=
  (mem_discover_iff gofiles X).2
    ⟨_, ⟨f, hf, d, hd, hsub⟩, q, elts, rfl, _, hel, p, rfl⟩

/-- Witness of C2: the event construction three literals deep in the only
declaration of the nested file. -/
theorem C2_discover_complete_witness :
    "UserLoginEvent" ∈ discover [nestedFile (.selectorExpr (.ident "events") "Metadata")] :=
  C2_discover_complete [nestedFile (.selectorExpr (.ident "events") "Metadata")]
    (nestedFile (.selectorExpr (.ident "events") "Metadata"))
    (varDecl (nest3 (eventLit (.selectorExpr (.ident "events") "Metadata"))))
    (.ident "events") (.ident "events")
    [.keyValueExpr (.ident "Type") (.selectorExpr (.ident "events") "UserLoginEvent")]
    "UserLoginEvent"
    (List.mem_singleton.2 rfl) (List.mem_singleton.2 rfl)
    (sub_of_mem_walk _ _ (by
      simp [varDecl, nest3, eventLit, Node.walk, walkList, walkOpt]))
    (List.mem_singleton.2 rfl)

/-- C3, as stated, fails: with the inner literal typed by the unqualified
name `Metadata`, the construction nested three levels deep leaves the
candidate set empty. -/
theorem C3_unqualified_counterexample :
    discover [nestedFile (.ident "Metadata")] = [] ∧
      "UserLoginEvent" ∉ discover [nestedFile (.ident "Metadata")] := by
  decide

/-- C3, amended: the construction
`Event{Metadata: pkg.Metadata{Type: events.UserLoginEvent}}`, nested three
levels deep, yields `UserLoginEvent` when the inner literal's type is a
qualified reference `pkg.Metadata`; in general the callback accepts the
literal of a `Metadata` field exactly when its type is a qualified reference
with trailing name `Metadata`, and an unqualified type `Metadata` is not
one. -/
theorem C3_nested_qualified :
    (∀ pkg : String,
      discover [nestedFile (.selectorExpr (.ident pkg) "Metadata")] = ["UserLoginEvent"]) ∧
    (∀ (eventTypes : List String) (type : Option Node) (elts : List Node),
      discoverVisit eventTypes (.keyValueExpr (.ident "Metadata") (.compositeLit type elts)) =
        if isQualifiedMetadata type then elts.foldl typeFieldStep eventTypes
        else eventTypes) ∧
    (∀ q : Node, isQualifiedMetadata (some (.selectorExpr q "Metadata")) = true) ∧
    isQualifiedMetadata (some (.ident "Metadata")) = false := by
  refine ⟨?_, ?_, ?_, ?_⟩
  · intro pkg
    simp [discover, discoverFile, discoverDecl, nestedFile, varDecl, nest3, eventLit,
      Node.walk, walkList, walkOpt, discoverVisit, typeFieldStep, mapSet]
  · intro eventTypes type elts
    rcases type with _ | t
    · simp [discoverVisit, isQualifiedMetadata]
    · rcases t with _ | _ | ⟨q, sel⟩ | _ | _ | _ | _ <;>
        simp [discoverVisit, isQualifiedMetadata]
  · intro q
    simp [isQualifiedMetadata]
  · simp [isQualifiedMetadata]

/-! ## Claims about the emitted records -/

/-- C4, as stated, fails: a later occurrence of the declared name in the
documentation text is replaced too, so the comment is not the literal
followed by the unchanged remainder. -/
theorem C4_later_occurrence_counterexample :
    extract [fooFile "EventFoo is emitted when EventFoo happens"] ["EventFoo"] =
        .ok [{ Name := "`foo.event`",
               Comment := "`foo.event` is emitted when `foo.event` happens" }] ∧
      extract [fooFile "EventFoo is emitted when EventFoo happens"] ["EventFoo"] ≠
        .ok [{ Name := "`foo.event`",
               Comment := "`foo.event`" ++ " is emitted when EventFoo happens" }] := by
  constructor
  · rfl
  · intro h
    have h2 := Except.ok.inj h
    revert h2
    decide

/-- C4, amended: for a value specification whose documentation text is a
non-empty candidate name `n` followed by `r` and whose first initializer is
the literal `value`, the record emitted for `n` has as Comment the normalized
literal followed by `r` in which every occurrence of `n` (non-overlapping,
left to right) is replaced by the normalized literal as well; when `n` does
not occur in `r`, the Comment is the normalized literal followed by `r`.  The
example `EventFoo` / `"foo.event"` holds as stated. -/
theorem C4_comment_substitution (eventTypes : List String) (eventData : List EventData)
    (names : List String) (type : Option Node) (value : String) (rest : List Node)
    (n r : String) (hn : n ∈ names) (hc : n ∈ eventTypes) (hne : n ≠ "") :
    ∃ recs,
      extractVisit eventTypes eventData
          (.valueSpec (some (n ++ r)) names type (.basicLit value :: rest)) =
        .ok (eventData ++ recs) ∧
      recs = (candidateNames eventTypes names).map (recordFor (some (n ++ r)) value) ∧
      recordFor (some (n ++ r)) value n ∈ recs ∧
      (recordFor (some (n ++ r)) value n).Comment =
        normalize value ++ ReplaceAll r n (normalize value) ∧
      (if n.data <:+: r.data then True
        else (recordFor (some (n ++ r)) value n).Comment = normalize value ++ r) ∧
      extract [fooFile "EventFoo is emitted when..."] ["EventFoo"] =
        .ok [{ Name := "`foo.event`", Comment := "`foo.event` is emitted when..." }] := by
  have hcomment : (recordFor (some (n ++ r)) value n).Comment =
      normalize value ++ ReplaceAll r n (normalize value) := by
    have hp : HasPrefix (n ++ r) n = true := (hasPrefix_iff _ _).2 ⟨r, rfl⟩
    simp only [recordFor, commentFor, docText, Option.getD_some, hp, if_true]
    exact replaceAll_prefix n (normalize value) r hne
  refine ⟨_, ?_, rfl, ?_, hcomment, ?_, rfl⟩
  · rw [extractVisit_eq]
    simp only [nodeRecords]
    rw [specRecords_literal]
    rfl
  · apply List.mem_map.2
    exact ⟨n, List.mem_filter.2 ⟨hn, by simpa using hc⟩, rfl⟩
  · split
    · trivial
    · next hocc =>
      rw [hcomment, replaceAll_no_occurrence r n (normalize value) hne hocc]

/-- Witness of C4 on the specification `EventFoo = "foo.event"`. -/
theorem C4_comment_substitution_witness :
    ∃ recs,
      extractVisit ["EventFoo"] []
          (.valueSpec (some ("EventFoo" ++ " is emitted when...")) ["EventFoo"] none
            (.basicLit "\"foo.event\"" :: [])) =
        .ok ([] ++ recs) ∧
      recs = (candidateNames ["EventFoo"] ["EventFoo"]).map
        (recordFor (some ("EventFoo" ++ " is emitted when...")) "\"foo.event\"") ∧
      recordFor (some ("EventFoo" ++ " is emitted when...")) "\"foo.event\"" "EventFoo" ∈ recs ∧
      (recordFor (some ("EventFoo" ++ " is emitted when...")) "\"foo.event\"" "EventFoo").Comment =
        normalize "\"foo.event\"" ++
          ReplaceAll " is emitted when..." "EventFoo" (normalize "\"foo.event\"") ∧
      (if "EventFoo".data <:+: " is emitted when...".data then True
        else (recordFor (some ("EventFoo" ++ " is emitted when...")) "\"foo.event\""
          "EventFoo").Comment = normalize "\"foo.event\"" ++ " is emitted when...") ∧
      extract [fooFile "EventFoo is emitted when..."] ["EventFoo"] =
        .ok [{ Name := "`foo.event`", Comment := "`foo.event` is emitted when..." }] :=
  C4_comment_substitution ["EventFoo"] [] ["EventFoo"] none "\"foo.event\"" []
    "EventFoo" " is emitted when..." (by decide) (by decide) (by decide)

/-- C5: for a value specification that declares a non-empty candidate name
`n`, whose first initializer is a literal and whose documentation text, if
there is one, does not start with `n`, the record emitted for `n` has the
documentation text itself as Comment, wherever else `n` occurs in it; the
documentation text of a specification without documentation is the empty
string. -/
theorem C5_comment_unmodified (eventTypes : List String) (eventData : List EventData)
    (doc : Option String) (names : List String) (type : Option Node) (value : String)
    (rest : List Node) (n : String) (hn : n ∈ names) (hc : n ∈ eventTypes) (hne : n ≠ "")
    (hp : ∀ d, doc = some d → HasPrefix d n = false) :
    ∃ recs,
      extractVisit eventTypes eventData
          (.valueSpec doc names type (.basicLit value :: rest)) = .ok (eventData ++ recs) ∧
      recs = (candidateNames eventTypes names).map (recordFor doc value) ∧
      recordFor doc value n ∈ recs ∧
      (recordFor doc value n).Comment = docText doc ∧
      docText none = "" ∧ (∀ d, docText (some d) = d) := by
  have hpre : HasPrefix (docText doc) n = false := by
    cases doc with
    | some d => exact hp d rfl
    | none =>
      rcases n with ⟨_ | ⟨c, cs⟩⟩
      · exact absurd rfl hne
      · rfl
  refine ⟨_, ?_, rfl, ?_, ?_, rfl, fun _ => rfl⟩
  · rw [extractVisit_eq]
    simp only [nodeRecords]
    rw [specRecords_literal]
    rfl
  · apply List.mem_map.2
    exact ⟨n, List.mem_filter.2 ⟨hn, by simpa using hc⟩, rfl⟩
  · simp [recordFor, commentFor, hpre]

/-- Witness of C5: the name occurs in the documentation text, but not at its
start. -/
theorem C5_comment_unmodified_witness :
    ∃ recs,
      extractVisit ["EventFoo"] []
          (.valueSpec (some "The EventFoo event.") ["EventFoo"] none
            (.basicLit "\"foo.event\"" :: [])) = .ok ([] ++ recs) ∧
      recs = (candidateNames ["EventFoo"] ["EventFoo"]).map
        (recordFor (some "The EventFoo event.") "\"foo.event\"") ∧
      recordFor (some "The EventFoo event.") "\"foo.event\"" "EventFoo" ∈ recs ∧
      (recordFor (some "The EventFoo event.") "\"foo.event\"" "EventFoo").Comment =
        docText (some "The EventFoo event.") ∧
      docText none = "" ∧ (∀ d, docText (some d) = d) :=
  C5_comment_unmodified ["EventFoo"] [] (some "The EventFoo event.") ["EventFoo"] none
    "\"foo.event\"" [] "EventFoo" (by decide) (by decide) (by decide)
    (by
      intro d hd
      cases hd
      decide)

/-- C6: when pass 2 completes, every emitted record comes from an occurrence
of a candidate name whose first initializer is a literal, and its Name is the
raw text of that literal with every double quote (character 34) replaced by a
backtick (character 96): it has the length of the literal and holds no double
quote.  A literal `"s"` whose body holds no double quote gives `s` between
backticks, a literal without double quotes is unchanged, and `"foo.event"`
gives `foo.event` between backticks. -/
theorem C6_name_normalization (gofiles : List File) (eventTypes : List String)
    (recs : List EventData) (hok : extract gofiles eventTypes = .ok recs) :
    (∀ r ∈ recs, ∃ o ∈ candidateOccurrences gofiles eventTypes, ∃ value rest,
      o.values = .basicLit value :: rest ∧
      r.Name = String.mk
        (value.data.map (fun c => if c = Char.ofNat 34 then Char.ofNat 96 else c)) ∧
      r.Name.length = value.length ∧
      Char.ofNat 34 ∉ r.Name.data) ∧
    (∀ s : String, (if Char.ofNat 34 ∈ s.data then True
      else normalize ("\"" ++ s ++ "\"") = "`" ++ s ++ "`")) ∧
    (∀ v : String, (if Char.ofNat 34 ∈ v.data then True else normalize v = v)) ∧
    normalize "\"foo.event\"" = "`foo.event`" := by
  refine ⟨?_, ?_, ?_, rfl⟩
  · intro r hr
    obtain ⟨o, ho, value, rest, hv, rfl⟩ :=
      forall₂_mem_right (extract_ok_forall₂ gofiles eventTypes recs hok) r hr
    refine ⟨o, ho, value, rest, hv, ?_, ?_, ?_⟩
    · exact String.ext (normalize_data value)
    · show (normalize value).data.length = value.data.length
      rw [normalize_data, List.length_map]
    · simp only [recordFor, normalize_data, List.mem_map, not_exists, not_and]
      intro c _
      split
      · decide
      · next hc => exact fun h => hc h
  · intro s
    split
    · trivial
    · next hs =>
      apply String.ext
      rw [normalize_data]
      have hmap : s.data.map (fun c => if c = Char.ofNat 34 then Char.ofNat 96 else c) =
          s.data := by
        conv_rhs => rw [← List.map_id s.data]
        apply List.map_congr_left
        intro c hc
        have : c ≠ Char.ofNat 34 := fun h => hs (h ▸ hc)
        simp [this]
      simp only [String.data_append, List.map_append, hmap]
      rfl
  · intro v
    split
    · trivial
    · next hv =>
      apply String.ext
      rw [normalize_data]
      conv_rhs => rw [← List.map_id v.data]
      apply List.map_congr_left
      intro c hc
      have : c ≠ Char.ofNat 34 := fun h => hv (h ▸ hc)
      simp [this]

/-- Witness of C6 on the file declaring `EventFoo = "foo.event"`. -/
theorem C6_name_normalization_witness :
    (∀ r ∈ [({ Name := "`foo.event`", Comment := "`foo.event` is emitted when..." } :
        EventData)],
      ∃ o ∈ candidateOccurrences [fooFile "EventFoo is emitted when..."] ["EventFoo"],
      ∃ value rest,
      o.values = .basicLit value :: rest ∧
      r.Name = String.mk
        (value.data.map (fun c => if c = Char.ofNat 34 then Char.ofNat 96 else c)) ∧
      r.Name.length = value.length ∧
      Char.ofNat 34 ∉ r.Name.data) ∧
    (∀ s : String, (if Char.ofNat 34 ∈ s.data then True
      else normalize ("\"" ++ s ++ "\"") = "`" ++ s ++ "`")) ∧
    (∀ v : String, (if Char.ofNat 34 ∈ v.data then True else normalize v = v)) ∧
    normalize "\"foo.event\"" = "`foo.event`" :=
  C6_name_normalization [fooFile "EventFoo is emitted when..."] ["EventFoo"] _ rfl

/-- C7: gating by the candidate set.  When pass 2 completes on `gofiles`,
its records correspond one for one, in order, to the occurrences of declared
names in value specifications anywhere in the files that are keys of the map.
Removing a declaration `d` none of whose value specifications declares a key
of the map does not change the outcome, and adding to the map an identifier
`X` that no value specification of `gofiles₂` declares does not change the
outcome on `gofiles₂` (no record, no panic). -/
theorem C7_candidate_gating (gofiles : List File) (eventTypes : List String)
    (recs : List EventData) (before after : List File) (ds₁ ds₂ : List Node) (d : Node)
    (gofiles₂ : List File) (X : String)
    (hok : extract gofiles eventTypes = .ok recs)
    (hd : ∀ n, Declares d n → n ∉ eventTypes)
    (hX : ¬ DeclaredIn gofiles₂ X) :
    List.Forall₂ Matches (candidateOccurrences gofiles eventTypes) recs ∧
    recs.length = (candidateOccurrences gofiles eventTypes).length ∧
    extract (before ++ { Decls := ds₁ ++ ds₂ } :: after) eventTypes =
      extract (before ++ { Decls := ds₁ ++ d :: ds₂ } :: after) eventTypes ∧
    extract gofiles₂ (X :: eventTypes) = extract gofiles₂ eventTypes := by
  have hall := extract_ok_forall₂ gofiles eventTypes recs hok
  refine ⟨hall, hall.length_eq.symm, ?_, ?_⟩
  · simp only [extract_eq_collect_files, collect_append, collect]
    rw [declRecords_of_no_candidate eventTypes d hd, appendRuns_ok_nil]
  · apply extract_congr
    intro x hx
    constructor
    · intro h
      rcases List.mem_cons.1 h with rfl | h
      · exact absurd hx hX
      · exact h
    · exact List.mem_cons_of_mem _

/-- Witness of C7: `EventFoo` is declared and a key, `NotAnEvent` is declared
with a call as initializer and is no key, `Ghost` is a key and not
declared. -/
theorem C7_candidate_gating_witness :
    List.Forall₂ Matches
      (candidateOccurrences
        [{ Decls := [callDecl "NotAnEvent", fooDecl "EventFoo is emitted when..."] }]
        ["EventFoo"])
      [{ Name := "`foo.event`", Comment := "`foo.event` is emitted when..." }] ∧
    [({ Name := "`foo.event`", Comment := "`foo.event` is emitted when..." } :
        EventData)].length =
      (candidateOccurrences
        [{ Decls := [callDecl "NotAnEvent", fooDecl "EventFoo is emitted when..."] }]
        ["EventFoo"]).length ∧
    extract ([] ++ { Decls := [] ++ [fooDecl "EventFoo is emitted when..."] } :: [])
        ["EventFoo"] =
      extract ([] ++ { Decls := [] ++ callDecl "NotAnEvent" ::
        [fooDecl "EventFoo is emitted when..."] } :: []) ["EventFoo"] ∧
    extract [fooFile "EventFoo is emitted when..."] ("Ghost" :: ["EventFoo"]) =
      extract [fooFile "EventFoo is emitted when..."] ["EventFoo"] :=
  C7_candidate_gating
    [{ Decls := [callDecl "NotAnEvent", fooDecl "EventFoo is emitted when..."] }]
    ["EventFoo"] _ [] [] [] [fooDecl "EventFoo is emitted when..."] (callDecl "NotAnEvent")
    [fooFile "EventFoo is emitted when..."] "Ghost"
    rfl
    (by
      intro n hn
      rw [declares_iff] at hn
      revert n
      decide)
    (by
      rw [declaredIn_iff]
      decide)

/-- C8, as stated, fails: the files tag `EventFoo` and `EventBar`, declare
`EventFoo = "foo.event"` and then `EventBar = f()`; the run ends in the
uncaught panic of the type assertion at line 107, so that no record is
printed, the one of `EventFoo` included. -/
theorem C8_panic_counterexample :
    discover malformedFiles = ["EventBar", "EventFoo"] ∧
      pipeline malformedFiles = .error .typeAssertion := by
  constructor
  · decide
  · rfl

/-- C8, amended: a value specification that declares a key of the map and
whose first initializer is not a basic literal makes the callback of pass 2
end in the run-time panic of the unchecked type assertion, whatever records
were collected before.  A run over files in which such a specification occurs
prints no record: it ends in the panic of the first visited value
specification that declares a key and has no initializer (index panic) or a
first initializer that is no literal (type-assertion panic).  When every node
visited before the specification has a literal first initializer wherever it
declares a key, the run ends in the type-assertion panic of that
specification; with `var EventBar int` before `var EventBar = f()` it ends in
the index panic of the earlier one. -/
theorem C8_non_literal_panics (gofiles gofiles₂ : List File) (eventTypes : List String)
    (eventData : List EventData) (doc : Option String) (names : List String)
    (type : Option Node) (v : Node) (rest : List Node) (n : String)
    (visited later : List Node)
    (hocc : Occurs (.valueSpec doc names type (v :: rest)) gofiles)
    (hn : n ∈ names) (hc : n ∈ eventTypes) (hv : ∀ value, v ≠ .basicLit value)
    (hsplit : allNodes gofiles₂ = visited ++ .valueSpec doc names type (v :: rest) :: later)
    (hvisited : ∀ m ∈ visited, LiteralFirst eventTypes m) :
    extractVisit eventTypes eventData (.valueSpec doc names type (v :: rest)) =
      .error .typeAssertion ∧
    (∃ p before node after, extract gofiles eventTypes = .error p ∧
      allNodes gofiles = before ++ node :: after ∧
      (∀ m ∈ before, LiteralFirst eventTypes m) ∧ PanicsAt eventTypes node p) ∧
    extract gofiles₂ eventTypes = .error .typeAssertion ∧
    pipeline [bareFirstFile] = .error .indexOutOfRange := by
  have hne : candidateNames eventTypes names ≠ [] := by
    intro h
    have hmem : n ∈ candidateNames eventTypes names :=
      List.mem_filter.2 ⟨hn, by simpa using hc⟩
    rw [h] at hmem
    cases hmem
  have hfl : firstLiteral (v :: rest) = .error .typeAssertion := by
    cases v <;> first | rfl | exact absurd rfl (hv _)
  have hnode : nodeRecords eventTypes (.valueSpec doc names type (v :: rest)) =
      .error .typeAssertion := by
    simp [nodeRecords, specRecords, hne, hfl]
  refine ⟨?_, ?_, ?_, rfl⟩
  · rw [extractVisit_eq, hnode]
    rfl
  · obtain ⟨p, hp⟩ : ∃ p, extract gofiles eventTypes = .error p := by
      rw [extract_eq_collect]
      exact collect_error_of_mem _ _ _ _ ((mem_allNodes_iff _ _).2 hocc) hnode
    have hp' := hp
    rw [extract_eq_collect] at hp'
    obtain ⟨before, node, after, hl, hbefore, hfail⟩ := collect_error_first _ _ p hp'
    exact ⟨p, before, node, after, hp, hl,
      fun m hm => (nodeRecords_ok_iff eventTypes m).1 (hbefore m hm),
      nodeRecords_error _ _ _ hfail⟩
  · rw [extract_eq_collect, hsplit]
    exact collect_error_at _ _ _ _ _
      (fun m hm => (nodeRecords_ok_iff eventTypes m).2 (hvisited m hm)) hnode

/-- Witness of C8: the specification `EventBar = f()` occurs in the files of
the counterexample, and it is the first offending one after the declaration
of `EventFoo`. -/
theorem C8_non_literal_panics_witness :
    extractVisit ["EventBar", "EventFoo"]
        [{ Name := "`foo.event`", Comment := "`foo.event` is emitted when..." }]
        (.valueSpec none ["EventBar"] none (.other [.ident "f"] :: [])) =
      .error .typeAssertion ∧
    (∃ p before node after, extract malformedFiles ["EventBar", "EventFoo"] = .error p ∧
      allNodes malformedFiles = before ++ node :: after ∧
      (∀ m ∈ before, LiteralFirst ["EventBar", "EventFoo"] m) ∧
      PanicsAt ["EventBar", "EventFoo"] node p) ∧
    extract [{ Decls := [constDecl none "EventFoo" "\"foo.event\"", callDecl "EventBar"] }]
        ["EventBar", "EventFoo"] = .error .typeAssertion ∧
    pipeline [bareFirstFile] = .error .indexOutOfRange :=
  C8_non_literal_panics malformedFiles
    [{ Decls := [constDecl none "EventFoo" "\"foo.event\"", callDecl "EventBar"] }]
    ["EventBar", "EventFoo"]
    [{ Name := "`foo.event`", Comment := "`foo.event` is emitted when..." }]
    none ["EventBar"] none (.other [.ident "f"]) [] "EventBar"
    [constDecl none "EventFoo" "\"foo.event\"",
      .valueSpec none ["EventFoo"] none [.basicLit "\"foo.event\""],
      .ident "EventFoo", .basicLit "\"foo.event\"", callDecl "EventBar"]
    [.ident "EventBar", .other [.ident "f"], .ident "f"]
    ⟨{ Decls := [callDecl "EventBar"] }, by simp [malformedFiles], callDecl "EventBar",
      List.mem_singleton.2 rfl,
      Sub.step (Child.otherChild _ _ (List.mem_singleton.2 rfl)) (Sub.refl _)⟩
    (by decide) (by decide) (by intro value h; cases h)
    rfl
    (by
      intro m hm
      simp only [List.mem_cons, List.mem_singleton, List.not_mem_nil, or_false] at hm
      rcases hm with rfl | rfl | rfl | rfl | rfl <;>
        exact (nodeRecords_ok_iff _ _).1 ⟨_, rfl⟩)

/-- C9: no deduplication, traversal order.  For a fixed map, pass 2 over the
concatenation of two lists of files is pass 2 over the first followed by
pass 2 over the second (the first panic, or the records of both in order), and
likewise for the declarations within a file.  Two declarations of the same key
`n` give two records, one per declaration site in declaration order, whether
they stand in one file or in two consecutive files. -/
theorem C9_no_dedup_in_order (eventTypes : List String) (a b : List File)
    (ds₁ ds₂ : List Node) (doc₁ doc₂ : Option String) (v₁ v₂ n : String)
    (hn : n ∈ eventTypes) :
    extract (a ++ b) eventTypes =
      appendRuns (extract a eventTypes) (extract b eventTypes) ∧
    extract [{ Decls := ds₁ ++ ds₂ }] eventTypes =
      appendRuns (extract [{ Decls := ds₁ }] eventTypes)
        (extract [{ Decls := ds₂ }] eventTypes) ∧
    extract [{ Decls := [constDecl doc₁ n v₁, constDecl doc₂ n v₂] }] eventTypes =
      .ok [recordFor doc₁ v₁ n, recordFor doc₂ v₂ n] ∧
    extract [{ Decls := [constDecl doc₁ n v₁] }, { Decls := [constDecl doc₂ n v₂] }]
        eventTypes =
      .ok [recordFor doc₁ v₁ n, recordFor doc₂ v₂ n] := by
  have hspec : ∀ doc v, nodeRecords eventTypes (.valueSpec doc [n] none [.basicLit v]) =
      .ok [recordFor doc v n] := by
    intro doc v
    simp only [nodeRecords]
    rw [specRecords_literal, candidateNames_cons_mem [] hn]
    rfl
  refine ⟨?_, ?_, ?_, ?_⟩
  · simp only [extract_eq_collect_files, collect_append]
  · simp only [extract_eq_collect_files, collect, collect_append, appendRuns_nil_right]
  · rw [extract_eq_collect_files]
    simp only [collect]
    rw [hspec, hspec]
    rfl
  · rw [extract_eq_collect_files]
    simp only [collect]
    rw [hspec, hspec]
    rfl

/-- Witness of C9: `EventFoo` declared twice with different literals. -/
theorem C9_no_dedup_in_order_witness :
    extract ([fooFile "EventFoo one"] ++ [fooFile "EventFoo two"]) ["EventFoo"] =
      appendRuns (extract [fooFile "EventFoo one"] ["EventFoo"])
        (extract [fooFile "EventFoo two"] ["EventFoo"]) ∧
    extract [{ Decls := [fooDecl "a"] ++ [fooDecl "b"] }] ["EventFoo"] =
      appendRuns (extract [{ Decls := [fooDecl "a"] }] ["EventFoo"])
        (extract [{ Decls := [fooDecl "b"] }] ["EventFoo"]) ∧
    extract [{ Decls := [constDecl none "EventFoo" "\"foo\"",
        constDecl none "EventFoo" "\"bar\""] }] ["EventFoo"] =
      .ok [recordFor none "\"foo\"" "EventFoo", recordFor none "\"bar\"" "EventFoo"] ∧
    extract [{ Decls := [constDecl none "EventFoo" "\"foo\""] },
        { Decls := [constDecl none "EventFoo" "\"bar\""] }] ["EventFoo"] =
      .ok [recordFor none "\"foo\"" "EventFoo", recordFor none "\"bar\"" "EventFoo"] :=
  C9_no_dedup_in_order ["EventFoo"] [fooFile "EventFoo one"] [fooFile "EventFoo two"]
    [fooDecl "a"] [fooDecl "b"] none none "\"foo\"" "\"bar\"" "EventFoo" (by decide)

/-- C10: when no field assignment `Metadata: q.Metadata{...}` with a field
`Type: p.X` occurs at any depth of any declaration of the files, the
candidate set is empty and the run prints the empty sequence of records,
whatever value declarations the files hold. -/
theorem C10_no_tag_no_output (gofiles : List File)
    (h : ∀ n X, Occurs n gofiles → ¬ IsEventTag n X) :
    discover gofiles = [] ∧ pipeline gofiles = .ok [] := by
  have hnil : discover gofiles = [] := (discover_eq_nil_iff gofiles).2 h
  exact ⟨hnil, by rw [pipeline, hnil, extract_nil]⟩

/-- Witness of C10: a file with an unqualified `Metadata` literal and
declarations with a call as initializer and with no initializer. -/
theorem C10_no_tag_no_output_witness :
    discover [untaggedFile] = [] ∧ pipeline [untaggedFile] = .ok [] :=
  C10_no_tag_no_output [untaggedFile] ((discover_eq_nil_iff [untaggedFile]).1 (by decide))

/-! ## Claims about the two passes together -/

/-- C11: the candidate set is a set built from all files before pass 2.  It
is the union of the candidate sets of the files (of two lists of files, and
of the single files), holds no identifier twice, has the same members after
a permutation of the files and after repeating a declaration, and when the
run completes, a declaration of `X` with a literal initializer yields its
record whenever a construction tagging `Type: p.X` occurs anywhere in the
files, also in a later file, as in the example. -/
theorem C11_candidate_set_union (a b gofiles₁ gofiles₂ gofiles : List File)
    (d : Node) (ds : List Node) (doc : Option String) (names : List String)
    (type : Option Node) (v : String) (rest : List Node) (X : String) (n : Node)
    (recs : List EventData)
    (hperm : gofiles₁.Perm gofiles₂)
    (hspec : Occurs (.valueSpec doc names type (.basicLit v :: rest)) gofiles)
    (hX : X ∈ names) (hn : Occurs n gofiles) (htag : IsEventTag n X)
    (hok : pipeline gofiles = .ok recs) :
    (∀ Y, Y ∈ discover (a ++ b) ↔ Y ∈ discover a ∨ Y ∈ discover b) ∧
    (∀ Y, Y ∈ discover a ↔ ∃ f ∈ a, Y ∈ discover [f]) ∧
    (discover a).Nodup ∧
    (∀ Y, Y ∈ discover gofiles₁ ↔ Y ∈ discover gofiles₂) ∧
    (∀ Y, Y ∈ discover [{ Decls := d :: d :: ds }] ↔ Y ∈ discover [{ Decls := d :: ds }]) ∧
    X ∈ discover gofiles ∧ recordFor doc v X ∈ recs ∧
    pipeline [fooFile "EventFoo is emitted when...", { Decls := [tagFunc "EventFoo"] }] =
      .ok [{ Name := "`foo.event`", Comment := "`foo.event` is emitted when..." }] := by
  have hXin : X ∈ discover gofiles := (mem_discover_iff gofiles X).2 ⟨n, hn, htag⟩
  refine ⟨?_, ?_, ?_, ?_, ?_, hXin, ?_, rfl⟩
  · intro Y
    simp only [mem_discover_iff, occurs_append]
    constructor
    · rintro ⟨m, hm | hm, ht⟩
      · exact Or.inl ⟨m, hm, ht⟩
      · exact Or.inr ⟨m, hm, ht⟩
    · rintro (⟨m, hm, ht⟩ | ⟨m, hm, ht⟩)
      · exact ⟨m, Or.inl hm, ht⟩
      · exact ⟨m, Or.inr hm, ht⟩
  · intro Y
    simp only [mem_discover_iff]
    constructor
    · rintro ⟨m, hm, ht⟩
      obtain ⟨f, hf, hocc⟩ := (occurs_iff_exists_file m a).1 hm
      exact ⟨f, hf, m, hocc, ht⟩
    · rintro ⟨f, hf, m, hocc, ht⟩
      exact ⟨m, (occurs_iff_exists_file m a).2 ⟨f, hf, hocc⟩, ht⟩
  · exact nodup_discoverFrom a [] List.nodup_nil
  · intro Y
    simp only [mem_discover_iff, occurs_of_perm _ hperm]
  · intro Y
    simp only [mem_discover_iff, occurs_repeated_decl]
  · have hocc : ({ doc := doc, name := X, values := .basicLit v :: rest } : Occurrence) ∈
        candidateOccurrences gofiles (discover gofiles) := by
      unfold candidateOccurrences
      rw [List.mem_flatMap]
      refine ⟨_, (mem_allNodes_iff _ _).2 hspec, ?_⟩
      simp only [nodeOccurrences, List.mem_map]
      exact ⟨X, List.mem_filter.2 ⟨hX, by simpa using hXin⟩, rfl⟩
    obtain ⟨r, hr, value, rest', hv, rfl⟩ :=
      forall₂_mem_left (extract_ok_forall₂ gofiles (discover gofiles) recs hok) _ hocc
    simp only [List.cons.injEq, Node.basicLit.injEq] at hv
    rw [hv.1]
    exact hr

/-- Witness of C11: the declaration of `EventFoo` stands in the first file,
the only construction tagging it in the second. -/
theorem C11_candidate_set_union_witness :
    (∀ Y, Y ∈ discover ([fooFile "a"] ++ [nestedFile (.ident "Metadata")]) ↔
      Y ∈ discover [fooFile "a"] ∨ Y ∈ discover [nestedFile (.ident "Metadata")]) ∧
    (∀ Y, Y ∈ discover [fooFile "a"] ↔ ∃ f ∈ [fooFile "a"], Y ∈ discover [f]) ∧
    (discover [fooFile "a"]).Nodup ∧
    (∀ Y, Y ∈ discover [fooFile "a", fooFile "b"] ↔
      Y ∈ discover [fooFile "b", fooFile "a"]) ∧
    (∀ Y, Y ∈ discover [{ Decls := tagFunc "EventFoo" :: tagFunc "EventFoo" :: [] }] ↔
      Y ∈ discover [{ Decls := tagFunc "EventFoo" :: [] }]) ∧
    "EventFoo" ∈ discover
      [fooFile "EventFoo is emitted when...", { Decls := [tagFunc "EventFoo"] }] ∧
    recordFor (some "EventFoo is emitted when...") "\"foo.event\"" "EventFoo" ∈
      [({ Name := "`foo.event`", Comment := "`foo.event` is emitted when..." } :
        EventData)] ∧
    pipeline [fooFile "EventFoo is emitted when...", { Decls := [tagFunc "EventFoo"] }] =
      .ok [{ Name := "`foo.event`", Comment := "`foo.event` is emitted when..." }] :=
  C11_candidate_set_union [fooFile "a"] [nestedFile (.ident "Metadata")]
    [fooFile "a", fooFile "b"] [fooFile "b", fooFile "a"]
    [fooFile "EventFoo is emitted when...", { Decls := [tagFunc "EventFoo"] }]
    (tagFunc "EventFoo") [] (some "EventFoo is emitted when...") ["EventFoo"] none
    "\"foo.event\"" [] "EventFoo"
    (.keyValueExpr (.ident "Metadata")
      (.compositeLit (some (.selectorExpr (.ident "events") "Metadata"))
        [.keyValueExpr (.ident "Type") (.selectorExpr (.ident "events") "EventFoo")]))
    _
    (List.Perm.swap _ _ _)
    ⟨fooFile "EventFoo is emitted when...", List.mem_cons_self _ _,
      fooDecl "EventFoo is emitted when...", List.mem_singleton.2 rfl,
      Sub.step (Child.otherChild _ _ (List.mem_singleton.2 rfl)) (Sub.refl _)⟩
    (List.mem_singleton.2 rfl)
    ⟨{ Decls := [tagFunc "EventFoo"] }, by simp, tagFunc "EventFoo",
      List.mem_singleton.2 rfl,
      sub_of_mem_walk _ _ (by simp [tagFunc, Node.walk, walkList, walkOpt])⟩
    ⟨.ident "events", _, rfl, _, List.mem_singleton.2 rfl, .ident "events", rfl⟩
    rfl

/-- C12: idempotence.  The outcome of pass 2 depends on the candidate
collection only through membership: two collections with the same members
give the same ordered outcome, so neither the insertion order nor repeated
insertions matter, and running pass 1 again on the map it has built leaves
the outcome of the run as it is. -/
theorem C12_idempotent (gofiles : List File) (c₁ c₂ : List String)
    (h : ∀ x, x ∈ c₁ ↔ x ∈ c₂) :
    extract gofiles c₁ = extract gofiles c₂ ∧
    extract gofiles c₁.reverse = extract gofiles c₁ ∧
    extract gofiles (c₁ ++ c₁) = extract gofiles c₁ ∧
    extract gofiles (gofiles.foldl discoverFile (discover gofiles)) = pipeline gofiles ∧
    extract gofiles (discover gofiles) = pipeline gofiles := by
  refine ⟨?_, ?_, ?_, ?_, rfl⟩
  · exact extract_congr gofiles c₁ c₂ (fun x _ => h x)
  · exact extract_congr gofiles _ _ (fun x _ => List.mem_reverse)
  · exact extract_congr gofiles _ _ (fun x _ => by simp)
  · apply extract_congr
    intro x _
    rw [mem_discoverFrom_iff, mem_discover_iff]
    exact or_self_iff

/-- Witness of C12: the same two identifiers inserted in the other order and
one of them twice. -/
theorem C12_idempotent_witness :
    extract malformedFiles ["EventFoo", "EventBar", "EventFoo"] =
        extract malformedFiles ["EventBar", "EventFoo"] ∧
    extract malformedFiles ["EventFoo", "EventBar", "EventFoo"].reverse =
      extract malformedFiles ["EventFoo", "EventBar", "EventFoo"] ∧
    extract malformedFiles
        (["EventFoo", "EventBar", "EventFoo"] ++ ["EventFoo", "EventBar", "EventFoo"]) =
      extract malformedFiles ["EventFoo", "EventBar", "EventFoo"] ∧
    extract malformedFiles (malformedFiles.foldl discoverFile (discover malformedFiles)) =
      pipeline malformedFiles ∧
    extract malformedFiles (discover malformedFiles) = pipeline malformedFiles :=
  C12_idempotent malformedFiles ["EventFoo", "EventBar", "EventFoo"] ["EventBar", "EventFoo"]
    (by
      intro x
      simp only [List.mem_cons, List.mem_singleton, List.not_mem_nil, or_false]
      tauto)

/-- C14: a value specification with several names uses its first initializer
for every one of them.  When the first initializer is the literal `value`,
the callback appends one record per declared name that is a key of the map,
in name order, and the Name of every one of them is the normalized `value`,
whatever the other initializers are.  For `A, B = "a", "b"` with both names
in the map the run yields two records named `a` between backticks. -/
theorem C14_first_initializer_for_all (eventTypes : List String)
    (eventData : List EventData) (doc : Option String) (names : List String)
    (type : Option Node) (value : String) (rest : List Node) :
    extractVisit eventTypes eventData
        (.valueSpec doc names type (.basicLit value :: rest)) =
      .ok (eventData ++ (candidateNames eventTypes names).map (recordFor doc value)) ∧
    ((candidateNames eventTypes names).map (recordFor doc value)).map EventData.Name =
      List.replicate (candidateNames eventTypes names).length (normalize value) ∧
    ((candidateNames eventTypes names).map (recordFor doc value)).map EventData.Comment =
      (candidateNames eventTypes names).map
        (fun n => commentFor (docText doc) n (normalize value)) ∧
    extract [{ Decls := [pairDecl] }] ["A", "B"] =
      .ok [{ Name := "`a`", Comment := "" }, { Name := "`a`", Comment := "" }] := by
  refine ⟨?_, ?_, ?_, rfl⟩
  · rw [extractVisit_eq]
    simp only [nodeRecords]
    rw [specRecords_literal]
    rfl
  · rw [List.map_map, List.eq_replicate_iff]
    refine ⟨by simp, ?_⟩
    intro b hb
    obtain ⟨n, _, rfl⟩ := List.mem_map.1 hb
    rfl
  · rw [List.map_map]
    rfl

/-- C15: exact failure condition of pass 2.  The pass completes if and only
if every value specification occurring in the files that declares at least
one key of the map has a first initializer that is a basic literal.  When it
ends in a panic instead, no record is returned, and the panic is raised at the
first visited value specification that declares a key and has no initializer
(index panic) or a first initializer that is no literal (type-assertion
panic); every node visited before it satisfies the condition. -/
theorem C15_exact_failure (gofiles : List File) (eventTypes : List String) :
    ((∃ recs, extract gofiles eventTypes = .ok recs) ↔
      ∀ node, Occurs node gofiles → LiteralFirst eventTypes node) ∧
    (∀ p, extract gofiles eventTypes = .error p →
      ∃ visited node later, allNodes gofiles = visited ++ node :: later ∧
        (∀ m ∈ visited, LiteralFirst eventTypes m) ∧ PanicsAt eventTypes node p) := by
  constructor
  · rw [extract_eq_collect, collect_ok_iff]
    simp only [nodeRecords_ok_iff, mem_allNodes_iff]
  · intro p hp
    rw [extract_eq_collect] at hp
    obtain ⟨visited, node, later, hl, hvisited, hnode⟩ := collect_error_first _ _ p hp
    refine ⟨visited, node, later, hl, ?_, nodeRecords_error _ _ _ hnode⟩
    intro m hm
    exact (nodeRecords_ok_iff eventTypes m).1 (hvisited m hm)

/-- Witness of C15: the run over the files declaring `EventBar = f()` ends in
the type-assertion panic, raised at a specification that declares a key. -/
theorem C15_exact_failure_witness :
    ∃ visited node later, allNodes malformedFiles = visited ++ node :: later ∧
      (∀ m ∈ visited, LiteralFirst ["EventBar", "EventFoo"] m) ∧
      PanicsAt ["EventBar", "EventFoo"] node .typeAssertion :=
  (C15_exact_failure malformedFiles ["EventBar", "EventFoo"]).2 .typeAssertion rfl

end EventReference

namespace Reversetunnel

variable {Site Cluster Err : Type}

/-! ## The loop of `GetSites`, site by site -/

theorem getSitesLoop_cons (t : TunnelWithRoles Site Cluster Err) (s : Site)
    (rest out : List Site) :
    getSitesLoop t (s :: rest) out =
      match verdict t s with
      | .keep => getSitesLoop t rest (out ++ [s])
      | .skip => getSitesLoop t rest out
      | .fail err => .error (t.wrap err) := by
  unfold verdict
  rw [getSitesLoop]
  by_cases hl : t.isLocalSite s = true
  · simp [hl]
  · simp only [hl, if_false]
    cases hrc : t.getRemoteCluster (t.getName s) with
    | error err =>
      cases hnf : t.isNotFound err <;> simp [hnf]
    | ok rc =>
      cases hc : t.checkAccessToRemoteCluster rc with
      | none => simp [hc]
      | some err =>
        cases had : t.isAccessDenied err <;> simp [had, hc]

theorem verdict_keep_iff (t : TunnelWithRoles Site Cluster Err) (s : Site) :
    verdict t s = .keep ↔ t.isLocalSite s = true ∨ Allowed t s := by
  unfold verdict Allowed
  by_cases hl : t.isLocalSite s = true
  · simp [hl]
  · simp only [hl, if_false, false_or]
    cases hrc : t.getRemoteCluster (t.getName s) with
    | error err =>
      cases hnf : t.isNotFound err <;> simp [hnf]
    | ok rc =>
      cases hc : t.checkAccessToRemoteCluster rc with
      | none => simp [hc]
      | some err =>
        cases had : t.isAccessDenied err <;> simp [had, hc]

theorem verdict_skip_iff (t : TunnelWithRoles Site Cluster Err) (s : Site) :
    verdict t s = .skip ↔ t.isLocalSite s = false ∧ Omitted t s := by
  unfold verdict Omitted
  by_cases hl : t.isLocalSite s = true
  · simp [hl]
  · simp only [hl, if_false, Bool.not_eq_true, true_and]
    cases hrc : t.getRemoteCluster (t.getName s) with
    | error err =>
      cases hnf : t.isNotFound err <;> simp [hnf]
    | ok rc =>
      cases hc : t.checkAccessToRemoteCluster rc with
      | none => simp [hc]
      | some err =>
        cases had : t.isAccessDenied err <;> simp [had, hc]

theorem verdict_of_lookup_error (t : TunnelWithRoles Site Cluster Err) (s : Site) (err : Err)
    (hl : t.isLocalSite s = false) (hrc : t.getRemoteCluster (t.getName s) = .error err) :
    verdict t s = if t.isNotFound err then .skip else .fail err := by
  simp [verdict, hl, hrc]

theorem verdict_of_check_error (t : TunnelWithRoles Site Cluster Err) (s : Site)
    (rc : Cluster) (err : Err) (hl : t.isLocalSite s = false)
    (hrc : t.getRemoteCluster (t.getName s) = .ok rc)
    (hc : t.checkAccessToRemoteCluster rc = some err) :
    verdict t s = if t.isAccessDenied err then .skip else .fail err := by
  simp [verdict, hl, hrc, hc]

theorem verdict_of_check_ok (t : TunnelWithRoles Site Cluster Err) (s : Site)
    (rc : Cluster) (hrc : t.getRemoteCluster (t.getName s) = .ok rc)
    (hc : t.checkAccessToRemoteCluster rc = none) :
    verdict t s = .keep := by
  simp [verdict, hrc, hc]

theorem verdict_fail_iff (t : TunnelWithRoles Site Cluster Err) (s : Site) (e : Err) :
    verdict t s = .fail e ↔ t.isLocalSite s = false ∧ FailsWith t s e := by
  constructor
  · intro h
    cases hl : t.isLocalSite s with
    | true => simp [verdict, hl] at h
    | false =>
      refine ⟨rfl, ?_⟩
      cases hrc : t.getRemoteCluster (t.getName s) with
      | error err =>
        rw [verdict_of_lookup_error t s err hl hrc] at h
        cases hnf : t.isNotFound err with
        | true => simp [hnf] at h
        | false =>
          simp only [hnf, Bool.false_eq_true, if_false, Verdict.fail.injEq] at h
          subst h
          exact Or.inl ⟨hrc, hnf⟩
      | ok rc =>
        cases hc : t.checkAccessToRemoteCluster rc with
        | none =>
          rw [verdict_of_check_ok t s rc hrc hc] at h
          cases h
        | some err =>
          rw [verdict_of_check_error t s rc err hl hrc hc] at h
          cases had : t.isAccessDenied err with
          | true => simp [had] at h
          | false =>
            simp only [had, Bool.false_eq_true, if_false, Verdict.fail.injEq] at h
            subst h
            exact Or.inr ⟨rc, hrc, hc, had⟩
  · rintro ⟨hl, ⟨hrc, hnf⟩ | ⟨rc, hrc, hc, had⟩⟩
    · rw [verdict_of_lookup_error t s e hl hrc, hnf]
      rfl
    · rw [verdict_of_check_error t s rc e hl hrc hc, had]
      rfl

theorem admits_eq_true_iff (t : TunnelWithRoles Site Cluster Err) (s : Site) :
    admits t s = true ↔ verdict t s = .keep := by
  unfold admits verdict
  by_cases hl : t.isLocalSite s = true
  · simp [hl]
  · simp only [hl, if_false, Bool.false_or]
    cases hrc : t.getRemoteCluster (t.getName s) with
    | error err =>
      cases hnf : t.isNotFound err <;> simp [hnf]
    | ok rc =>
      cases hc : t.checkAccessToRemoteCluster rc with
      | none => simp [hc]
      | some err =>
        cases had : t.isAccessDenied err <;> simp [had, hc]

/-- A successful loop has appended the admitted sites, in order. -/
theorem getSitesLoop_ok (t : TunnelWithRoles Site Cluster Err) (l : List Site) :
    ∀ out r, getSitesLoop t l out = .ok r → r = out ++ l.filter (fun s => admits t s) := by
  induction l with
  | nil =>
    intro out r h
    simp only [getSitesLoop, Except.ok.injEq] at h
    simp [h]
  | cons s rest ih =>
    intro out r h
    rw [getSitesLoop_cons] at h
    cases hv : verdict t s with
    | keep =>
      rw [hv] at h
      have hadm : admits t s = true := (admits_eq_true_iff t s).2 hv
      rw [ih _ _ h, List.filter_cons, hadm]
      simp
    | skip =>
      rw [hv] at h
      have hadm : admits t s = false := by
        rw [Bool.eq_false_iff]
        intro hk
        rw [(admits_eq_true_iff t s).1 hk] at hv
        cases hv
      rw [ih _ _ h, List.filter_cons, hadm]
      simp
    | fail err =>
      rw [hv] at h
      cases h

/-- The loop without a failing site succeeds. -/
theorem getSitesLoop_of_no_fail (t : TunnelWithRoles Site Cluster Err) (l : List Site)
    (h : ∀ s ∈ l, ∀ e, verdict t s ≠ .fail e) :
    ∀ out, getSitesLoop t l out = .ok (out ++ l.filter (fun s => admits t s)) := by
  induction l with
  | nil => intro out; simp [getSitesLoop]
  | cons s rest ih =>
    intro out
    have hrest : ∀ s' ∈ rest, ∀ e, verdict t s' ≠ .fail e :=
      fun s' hs' => h s' (List.mem_cons_of_mem _ hs')
    rw [getSitesLoop_cons]
    cases hv : verdict t s with
    | keep =>
      have hadm : admits t s = true := (admits_eq_true_iff t s).2 hv
      simp only []
      rw [ih hrest, List.filter_cons, hadm]
      simp
    | skip =>
      have hadm : admits t s = false := by
        rw [Bool.eq_false_iff]
        intro hk
        rw [(admits_eq_true_iff t s).1 hk] at hv
        cases hv
      simp only []
      rw [ih hrest, List.filter_cons, hadm]
      simp
    | fail err => exact absurd hv (h s (List.mem_cons_self _ _) err)

/-- The loop fails at the first failing site, with its wrapped error. -/
theorem getSitesLoop_first_fail (t : TunnelWithRoles Site Cluster Err) (before : List Site)
    (s : Site) (after : List Site) (e : Err)
    (hbefore : ∀ b ∈ before, ∀ e', verdict t b ≠ .fail e') (hs : verdict t s = .fail e) :
    ∀ out, getSitesLoop t (before ++ s :: after) out = .error (t.wrap e) := by
  induction before with
  | nil =>
    intro out
    rw [List.nil_append, getSitesLoop_cons, hs]
  | cons b bs ih =>
    intro out
    have hbs : ∀ b' ∈ bs, ∀ e', verdict t b' ≠ .fail e' :=
      fun b' hb' => hbefore b' (List.mem_cons_of_mem _ hb')
    rw [List.cons_append, getSitesLoop_cons]
    cases hv : verdict t b with
    | keep => exact ih hbs _
    | skip => exact ih hbs _
    | fail err => exact absurd hv (hbefore b (List.mem_cons_self _ _) err)

/-- A failing loop has a first failing site. -/
theorem getSitesLoop_error (t : TunnelWithRoles Site Cluster Err) (l : List Site) :
    ∀ out err, getSitesLoop t l out = .error err →
      ∃ before s after e, l = before ++ s :: after ∧
        (∀ b ∈ before, ∀ e', verdict t b ≠ .fail e') ∧ verdict t s = .fail e ∧
        err = t.wrap e := by
  induction l with
  | nil =>
    intro out err h
    simp [getSitesLoop] at h
  | cons s rest ih =>
    intro out err h
    rw [getSitesLoop_cons] at h
    cases hv : verdict t s with
    | keep =>
      rw [hv] at h
      obtain ⟨before, s', after, e, hl, hb, hs', he⟩ := ih _ _ h
      refine ⟨s :: before, s', after, e, by rw [hl]; rfl, ?_, hs', he⟩
      intro b hb' e'
      rcases List.mem_cons.1 hb' with rfl | hb'
      · rw [hv]
        intro hc
        cases hc
      · exact hb b hb' e'
    | skip =>
      rw [hv] at h
      obtain ⟨before, s', after, e, hl, hb, hs', he⟩ := ih _ _ h
      refine ⟨s :: before, s', after, e, by rw [hl]; rfl, ?_, hs', he⟩
      intro b hb' e'
      rcases List.mem_cons.1 hb' with rfl | hb'
      · rw [hv]
        intro hc
        cases hc
      · exact hb b hb' e'
    | fail e =>
      rw [hv] at h
      simp only [Except.error.injEq] at h
      exact ⟨[], s, rest, e, rfl, by simp, hv, h.symm⟩

/-- A successful loop has met no failing site. -/
theorem getSitesLoop_ok_no_fail (t : TunnelWithRoles Site Cluster Err) (l : List Site) :
    ∀ out r, getSitesLoop t l out = .ok r → ∀ s ∈ l, ∀ e, verdict t s ≠ .fail e := by
  intro out r h s hs e hv
  obtain ⟨before, after, rfl⟩ := List.append_of_mem hs
  have hfirst : ∃ err, getSitesLoop t (before ++ s :: after) out = .error err := by
    clear h hs
    induction before generalizing out with
    | nil => exact ⟨t.wrap e, by rw [List.nil_append, getSitesLoop_cons, hv]⟩
    | cons b bs ih =>
      rw [List.cons_append, getSitesLoop_cons]
      cases hb : verdict t b with
      | keep => exact ih _
      | skip => exact ih _
      | fail e' => exact ⟨t.wrap e', rfl⟩
  obtain ⟨err, herr⟩ := hfirst
  rw [herr] at h
  cases h

theorem verdict_ne_fail_of (t : TunnelWithRoles Site Cluster Err) (s : Site)
    (h : t.isLocalSite s = true ∨ Allowed t s ∨ Omitted t s) :
    ∀ e, verdict t s ≠ .fail e := by
  intro e hv
  cases hl : t.isLocalSite s with
  | true =>
    rw [(verdict_keep_iff t s).2 (Or.inl hl)] at hv
    cases hv
  | false =>
    rcases h with h | h | h
    · rw [hl] at h
      cases h
    · rw [(verdict_keep_iff t s).2 (Or.inr h)] at hv
      cases hv
    · rw [(verdict_skip_iff t s).2 ⟨hl, h⟩] at hv
      cases hv

/-- What `GetSite` returns, case by case. -/
theorem getSite_outcome (t : TunnelWithRoles Site Cluster Err) (clusterName : String) :
    (∀ err, t.tunnelGetSite clusterName = .error err →
      GetSite t clusterName = .error (t.wrap err)) ∧
    (∀ cluster, t.tunnelGetSite clusterName = .ok cluster → t.isLocalSite cluster = true →
      GetSite t clusterName = .ok cluster) ∧
    (∀ cluster err, t.tunnelGetSite clusterName = .ok cluster →
      t.isLocalSite cluster = false → t.getRemoteCluster clusterName = .error err →
      GetSite t clusterName = .error (t.wrap err)) ∧
    (∀ cluster rc err, t.tunnelGetSite clusterName = .ok cluster →
      t.isLocalSite cluster = false → t.getRemoteCluster clusterName = .ok rc →
      t.checkAccessToRemoteCluster rc = some err →
      GetSite t clusterName = .error (t.opaqueAccessDenied err)) ∧
    (∀ cluster rc, t.tunnelGetSite clusterName = .ok cluster →
      t.isLocalSite cluster = false → t.getRemoteCluster clusterName = .ok rc →
      t.checkAccessToRemoteCluster rc = none →
      GetSite t clusterName = .ok cluster) := by
  refine ⟨?_, ?_, ?_, ?_, ?_⟩
  · intro err h
    simp [GetSite, h]
  · intro cluster h hl
    simp [GetSite, h, hl]
  · intro cluster err h hl hrc
    simp [GetSite, h, hl, hrc]
  · intro cluster rc err h hl hrc hc
    simp [GetSite, h, hl, hrc, hc]
  · intro cluster rc h hl hrc hc
    simp [GetSite, h, hl, hrc, hc]

/-- `GetSite` succeeds exactly when the inner lookup succeeds and the site is
local or its remote-cluster resource is found and passes the access check;
the result is then the site of the inner tunnel. -/
theorem getSite_ok_iff (t : TunnelWithRoles Site Cluster Err) (clusterName : String)
    (site : Site) :
    GetSite t clusterName = .ok site ↔
      t.tunnelGetSite clusterName = .ok site ∧
        (t.isLocalSite site = true ∨
          ∃ rc, t.getRemoteCluster clusterName = .ok rc ∧
            t.checkAccessToRemoteCluster rc = none) := by
  obtain ⟨h1, h2, h3, h4, h5⟩ := getSite_outcome t clusterName
  constructor
  · intro hok
    cases h : t.tunnelGetSite clusterName with
    | error err =>
      rw [h1 err h] at hok
      cases hok
    | ok cluster =>
      cases hl : t.isLocalSite cluster with
      | true =>
        rw [h2 cluster h hl] at hok
        cases hok
        exact ⟨rfl, Or.inl hl⟩
      | false =>
        cases hrc : t.getRemoteCluster clusterName with
        | error err =>
          rw [h3 cluster err h hl hrc] at hok
          cases hok
        | ok rc =>
          cases hc : t.checkAccessToRemoteCluster rc with
          | some err =>
            rw [h4 cluster rc err h hl hrc hc] at hok
            cases hok
          | none =>
            rw [h5 cluster rc h hl hrc hc] at hok
            cases hok
            exact ⟨rfl, Or.inr ⟨rc, rfl, hc⟩⟩
  · rintro ⟨h, hallowed⟩
    cases hl : t.isLocalSite site with
    | true => exact h2 site h hl
    | false =>
      rcases hallowed with hl' | ⟨rc, hrc, hc⟩
      · rw [hl] at hl'
        cases hl'
      · exact h5 site rc h hl hrc hc

end Reversetunnel

namespace Reversetunnel

variable {Site Cluster Err : Type}

/-! ## Claims about `TunnelWithRoles` -/

/-- C13: `GetSites` is an access-control filter over the list of the inner
tunnel.  Whenever it succeeds, the inner tunnel has returned a list
`clusters` and the result is `clusters` filtered by `admits`: a sublist of
`clusters` that holds every local site of `clusters` and holds a non-local
site of `clusters` exactly when the access point finds its remote-cluster
resource and the access check on that resource returns no error. -/
theorem C13_getSites_filter (t : TunnelWithRoles Site Cluster Err) (out : List Site)
    (hok : GetSites t = .ok out) :
    ∃ clusters, t.tunnelGetSites = .ok clusters ∧
      out = clusters.filter (fun s => admits t s) ∧
      List.Sublist out clusters ∧
      (∀ s ∈ clusters, t.isLocalSite s = true → s ∈ out) ∧
      (∀ s ∈ clusters, t.isLocalSite s = false → (s ∈ out ↔ Allowed t s)) ∧
      (∀ s, admits t s = true ↔ (t.isLocalSite s = true ∨ Allowed t s)) := by
  have hadm : ∀ s, admits t s = true ↔ (t.isLocalSite s = true ∨ Allowed t s) :=
    fun s => (admits_eq_true_iff t s).trans (verdict_keep_iff t s)
  unfold GetSites at hok
  cases hinner : t.tunnelGetSites with
  | error err =>
    rw [hinner] at hok
    cases hok
  | ok clusters =>
    rw [hinner] at hok
    have hout : out = clusters.filter (fun s => admits t s) := by
      simpa using getSitesLoop_ok t clusters [] out hok
    refine ⟨clusters, rfl, hout, ?_, ?_, ?_, hadm⟩
    · rw [hout]
      exact List.filter_sublist clusters
    · intro s hs hl
      rw [hout, List.mem_filter]
      exact ⟨hs, (hadm s).2 (Or.inl hl)⟩
    · intro s hs hl
      rw [hout, List.mem_filter]
      constructor
      · rintro ⟨_, h⟩
        rcases (hadm s).1 h with h | h
        · rw [hl] at h
          cases h
        · exact h
      · intro h
        exact ⟨hs, (hadm s).2 (Or.inr h)⟩

/-- Witness of C13: a local site, an allowed cluster, a denied cluster and a
cluster without resource. -/
theorem C13_getSites_filter_witness :
    ∃ clusters,
      (exTunnel [.localSite "me", .remoteSite "east", .remoteSite "west",
        .remoteSite "gone"]).tunnelGetSites = .ok clusters ∧
      [ExSite.localSite "me", ExSite.remoteSite "east"] =
        clusters.filter (fun s => admits (exTunnel [.localSite "me", .remoteSite "east",
          .remoteSite "west", .remoteSite "gone"]) s) ∧
      List.Sublist [ExSite.localSite "me", ExSite.remoteSite "east"] clusters ∧
      (∀ s ∈ clusters, (exTunnel [.localSite "me", .remoteSite "east", .remoteSite "west",
        .remoteSite "gone"]).isLocalSite s = true →
        s ∈ [ExSite.localSite "me", ExSite.remoteSite "east"]) ∧
      (∀ s ∈ clusters, (exTunnel [.localSite "me", .remoteSite "east", .remoteSite "west",
        .remoteSite "gone"]).isLocalSite s = false →
        (s ∈ [ExSite.localSite "me", ExSite.remoteSite "east"] ↔
          Allowed (exTunnel [.localSite "me", .remoteSite "east", .remoteSite "west",
            .remoteSite "gone"]) s)) ∧
      (∀ s, admits (exTunnel [.localSite "me", .remoteSite "east", .remoteSite "west",
          .remoteSite "gone"]) s = true ↔
        ((exTunnel [.localSite "me", .remoteSite "east", .remoteSite "west",
          .remoteSite "gone"]).isLocalSite s = true ∨
          Allowed (exTunnel [.localSite "me", .remoteSite "east", .remoteSite "west",
            .remoteSite "gone"]) s)) :=
  C13_getSites_filter
    (exTunnel [.localSite "me", .remoteSite "east", .remoteSite "west", .remoteSite "gone"])
    [.localSite "me", .remoteSite "east"] rfl

/-- C17: exact failure condition of `GetSites`.  It returns an error if and
only if the inner `GetSites` fails or some non-local site of the list fails
(its lookup fails with an error that is not a not-found error, or its access
check fails with an error that is not an access-denied error).  The error is
the wrapped error of the inner tunnel, or the wrapped error of the first
failing site in list order when every site before it is local, allowed or
omitted.  A site whose lookup fails with a not-found error or whose check
fails with an access-denied error is only omitted: the loop goes on with the
remaining sites, and a list without a failing site gives the admitted
sites. -/
theorem C17_getSites_failure (t : TunnelWithRoles Site Cluster Err) :
    ((∃ err, GetSites t = .error err) ↔
      (∃ err, t.tunnelGetSites = .error err) ∨
      ∃ clusters, t.tunnelGetSites = .ok clusters ∧
        ∃ s ∈ clusters, t.isLocalSite s = false ∧ ∃ e, FailsWith t s e) ∧
    (∀ err, t.tunnelGetSites = .error err → GetSites t = .error (t.wrap err)) ∧
    (∀ before s after e, t.tunnelGetSites = .ok (before ++ s :: after) →
      (∀ b ∈ before, t.isLocalSite b = true ∨ Allowed t b ∨ Omitted t b) →
      t.isLocalSite s = false → FailsWith t s e →
      GetSites t = .error (t.wrap e)) ∧
    (∀ s rest out, t.isLocalSite s = false → Omitted t s →
      getSitesLoop t (s :: rest) out = getSitesLoop t rest out) ∧
    (∀ clusters, t.tunnelGetSites = .ok clusters →
      (∀ s ∈ clusters, t.isLocalSite s = true ∨ Allowed t s ∨ Omitted t s) →
      GetSites t = .ok (clusters.filter (fun s => admits t s))) := by
  refine ⟨?_, ?_, ?_, ?_, ?_⟩
  · constructor
    · rintro ⟨err, herr⟩
      unfold GetSites at herr
      cases hinner : t.tunnelGetSites with
      | error e => exact Or.inl ⟨e, rfl⟩
      | ok clusters =>
        rw [hinner] at herr
        obtain ⟨before, s, after, e, hl, _, hs, _⟩ := getSitesLoop_error t clusters [] err herr
        obtain ⟨hlocal, hfail⟩ := (verdict_fail_iff t s e).1 hs
        exact Or.inr ⟨clusters, rfl, s, by rw [hl]; simp, hlocal, e, hfail⟩
    · rintro (⟨err, herr⟩ | ⟨clusters, hinner, s, hs, hlocal, e, hfail⟩)
      · exact ⟨t.wrap err, by simp [GetSites, herr]⟩
      · have hv : verdict t s = .fail e := (verdict_fail_iff t s e).2 ⟨hlocal, hfail⟩
        cases hres : GetSites t with
        | error err => exact ⟨err, rfl⟩
        | ok r =>
          unfold GetSites at hres
          rw [hinner] at hres
          exact absurd hv (getSitesLoop_ok_no_fail t clusters [] r hres s hs e)
  · intro err herr
    simp [GetSites, herr]
  · intro before s after e hinner hbefore hlocal hfail
    unfold GetSites
    rw [hinner]
    exact getSitesLoop_first_fail t before s after e
      (fun b hb => verdict_ne_fail_of t b (hbefore b hb))
      ((verdict_fail_iff t s e).2 ⟨hlocal, hfail⟩) []
  · intro s rest out hlocal hom
    rw [getSitesLoop_cons, (verdict_skip_iff t s).2 ⟨hlocal, hom⟩]
  · intro clusters hinner hall
    unfold GetSites
    rw [hinner]
    simpa using getSitesLoop_of_no_fail t clusters
      (fun s hs => verdict_ne_fail_of t s (hall s hs)) []

/-- Witness of C17: the check on `north` fails with a connection error after
a local, an allowed and a denied site; the not-found cluster `gone` is
omitted. -/
theorem C17_getSites_failure_witness :
    GetSites (exTunnel [.localSite "me", .remoteSite "east", .remoteSite "west",
        .remoteSite "north", .remoteSite "gone"]) =
      .error (ExErr.wrapped .connection) ∧
    getSitesLoop (exTunnel []) (.remoteSite "gone" :: [.remoteSite "east"]) [] =
      getSitesLoop (exTunnel []) [.remoteSite "east"] [] :=
  ⟨(C17_getSites_failure (exTunnel [.localSite "me", .remoteSite "east", .remoteSite "west",
      .remoteSite "north", .remoteSite "gone"])).2.2.1
      [.localSite "me", .remoteSite "east", .remoteSite "west"] (.remoteSite "north")
      [.remoteSite "gone"] .connection rfl
      (by
        intro b hb
        simp only [List.mem_cons, List.mem_singleton, List.not_mem_nil, or_false] at hb
        rcases hb with rfl | rfl | rfl
        · exact Or.inl rfl
        · exact Or.inr (Or.inl ⟨"east", rfl, rfl⟩)
        · exact Or.inr (Or.inr (Or.inr ⟨"west", .accessDenied, rfl, rfl, rfl⟩)))
      rfl (Or.inr ⟨"north", rfl, rfl, rfl⟩),
    (C17_getSites_failure (exTunnel [])).2.2.2.1 (.remoteSite "gone") [.remoteSite "east"] []
      rfl (Or.inl ⟨.notFound, rfl, rfl⟩)⟩

end Reversetunnel
